import Mathlib

/-!
# Verification of the cjsonpp wrapper (`cjsonpp.h`, version 0.3)

This development embeds the `cjsonpp::JSONObject` wrapper and the parts of the
underlying cJSON node store that it relies on.  The wrapper code itself
(`JSONObject`, its constructors, `get`/`as`/`asArray`/`add`/`set`/`remove`,
and the free functions `parse`/`nullObject`/`arrayObject`) is translated from
the source header.  The cJSON node store (`cJSON_Parse`, `cJSON_Print`,
`cJSON_CreateNumber`, `cJSON_AddItemReferenceToObject`,
`cJSON_DetachItemFromObject`, `cJSON_Delete`, ...) is not part of the source
tree, so it is modelled from the specification's collaborator contract:
a tree of kind-tagged nodes, create-by-value, parse/print of standard JSON
text, link-by-reference, detach, and a non-idempotent delete.

Machine doubles are modelled as exact rationals; IEEE rounding is outside the
scope of the claims checked here.  Pointers, shared-ownership records and the
keepalive set are modelled explicitly by a small heap (`World`).
-/

namespace Cjsonpp

/-- Structural JSON document trees: the shape, scalar payloads, key order and
element order of a document, used to state parse/print round-trips.  Numbers
carry the double payload as an exact rational. -/
inductive JVal : Type where
  | jnull : JVal
  | jbool : Bool → JVal
  | jnum : Rat → JVal
  | jstr : String → JVal
  | jarr : List JVal → JVal
  | jobj : List (String × JVal) → JVal

mutual

/-- Node count measure of a document tree, used as parser fuel. -/
def sizeV : JVal → Nat
  | .jnull => 1
  | .jbool _ => 1
  | .jnum _ => 1
  | .jstr _ => 1
  | .jarr xs => 1 + sizeL xs
  | .jobj kvs => 1 + sizeF kvs

/-- Fuel measure of an array tail. -/
def sizeL : List JVal → Nat
  | [] => 1
  | x :: tl => 1 + sizeV x + sizeL tl

/-- Fuel measure of an object tail. -/
def sizeF : List (String × JVal) → Nat
  | [] => 1
  | kv :: tl => 1 + sizeV kv.2 + sizeF tl

end

/-! ## Characters, whitespace, digits -/

/-- JSON insignificant whitespace. -/
def isWs (c : Char) : Bool := c = ' ' || c = '\t' || c = '\n' || c = '\r'

/-- Skip insignificant whitespace, as the store's tokenizer does between
tokens. -/
def skipWs : List Char → List Char
  | [] => []
  | c :: cs => if isWs c then skipWs cs else c :: cs

/-- Decimal digit character for `n < 10`. -/
def digitChar (n : Nat) : Char := Char.ofNat (48 + n)

/-- Decimal digit test. -/
def isDigitC (c : Char) : Bool := 48 ≤ c.toNat && c.toNat ≤ 57

/-- Value of a decimal digit character. -/
def digitVal (c : Char) : Nat := c.toNat - 48

/-- Decimal digits of a natural number, most significant first (fuel-indexed
so that concrete instances evaluate; `fuel > n` always suffices). -/
def natDigitsF : Nat → Nat → List Char
  | 0, _ => []
  | fuel + 1, n =>
    if n < 10 then [digitChar n]
    else natDigitsF fuel (n / 10) ++ [digitChar (n % 10)]

/-- Decimal digits of a natural number, most significant first. -/
def natDigits (n : Nat) : List Char := natDigitsF (n + 1) n

/-- Read a maximal run of decimal digits, accumulating the value and
counting the consumed digits. -/
def readDigits (acc cnt : Nat) : List Char → Nat × Nat × List Char
  | [] => (acc, cnt, [])
  | c :: cs =>
    if isDigitC c then readDigits (10 * acc + digitVal c) (cnt + 1) cs
    else (acc, cnt, c :: cs)

/-- Value of a digit string. -/
def digitsVal (xs : List Char) : Nat :=
  xs.foldl (fun a c => 10 * a + digitVal c) 0

/-! ## Number rendering and reading -/

/-- Multiplicity of the factor `p` in `n` (`0` when `p < 2` or `n = 0`),
fuel-indexed for evaluability. -/
def pmultF : Nat → Nat → Nat → Nat
  | 0, _, _ => 0
  | fuel + 1, p, n =>
    if 2 ≤ p ∧ 1 ≤ n ∧ p ∣ n then pmultF fuel p (n / p) + 1 else 0

/-- Multiplicity of the factor `p` in `n`. -/
def pmult (p n : Nat) : Nat := pmultF (n + 1) p n

/-- A decimal exponent large enough to clear the denominator `d` whenever
`d` factors over 2 and 5, i.e. whenever the value has a finite decimal
expansion. -/
def decExp (d : Nat) : Nat := max (pmult 2 d) (pmult 5 d)

/-- The rationals with a finite decimal expansion: exactly the values the
store's printer can write exactly.  Every document built through the typed
constructors carries such numbers (doubles are dyadic rationals). -/
def DecFinite (q : Rat) : Prop := (q.den : Nat) ∣ 10 ^ decExp q.den

instance (q : Rat) : Decidable (DecFinite q) := by
  unfold DecFinite; infer_instance

/-- Digits of the scaled mantissa `m`, left-padded with zeros so that at least
one digit lands before the decimal point when the last `k` digits become the
fraction. -/
def fracDigits (m k : Nat) : List Char :=
  List.replicate (k + 1 - (natDigits m).length) '0' ++ natDigits m

/-- Decimal rendering of a number payload (spec-modelled store printer:
standard JSON number notation, sign, integer digits and a fraction part when
the denominator is non-trivial). -/
def numRepr (q : Rat) : List Char :=
  let k := decExp q.den
  let m := q.num.natAbs * 10 ^ k / q.den
  let sign : List Char := if q.num < 0 then ['-'] else []
  if k = 0 then sign ++ natDigits m
  else
    let ds := fracDigits m k
    sign ++ ds.take (ds.length - k) ++ '.' :: ds.drop (ds.length - k)

/-- Head-is-a-digit test. -/
def digitHead : List Char → Bool
  | c :: _ => isDigitC c
  | [] => false

/-- Read a standard JSON number after the optional minus sign: integer
digits, optional fraction, optional exponent. -/
def parseNumCore (neg : Bool) (cs : List Char) : Option (Rat × List Char) :=
  if digitHead cs then
    let ip := readDigits 0 0 cs
    let fr :=
      if ip.2.2.head? = some ('.') ∧ digitHead ip.2.2.tail = true then
        readDigits 0 0 ip.2.2.tail
      else (0, 0, ip.2.2)
    let ex : Bool × Nat × List Char :=
      if fr.2.2.head? = some ('e') ∨ fr.2.2.head? = some ('E') then
        if fr.2.2.tail.head? = some ('-') then
          if digitHead fr.2.2.tail.tail then
            (true, (readDigits 0 0 fr.2.2.tail.tail).1,
              (readDigits 0 0 fr.2.2.tail.tail).2.2)
          else (false, 0, fr.2.2)
        else if fr.2.2.tail.head? = some ('+') then
          if digitHead fr.2.2.tail.tail then
            (false, (readDigits 0 0 fr.2.2.tail.tail).1,
              (readDigits 0 0 fr.2.2.tail.tail).2.2)
          else (false, 0, fr.2.2)
        else
          if digitHead fr.2.2.tail then
            (false, (readDigits 0 0 fr.2.2.tail).1,
              (readDigits 0 0 fr.2.2.tail).2.2)
          else (false, 0, fr.2.2)
      else (false, 0, fr.2.2)
    let base : Rat := (ip.1 : Rat) + (fr.1 : Rat) / (10 : Rat) ^ fr.2.1
    let scaled : Rat :=
      if ex.1 then base / (10 : Rat) ^ ex.2.1 else base * (10 : Rat) ^ ex.2.1
    some (if neg then -scaled else scaled, ex.2.2)
  else none

/-- Read a standard JSON number. -/
def parseNum (cs : List Char) : Option (Rat × List Char) :=
  if cs.head? = some ('-') then parseNumCore true cs.tail
  else parseNumCore false cs

/-! ## String rendering and reading -/

/-- Lower-case hexadecimal digit character for `n < 16`. -/
def hexDigitChar (n : Nat) : Char :=
  if n < 10 then digitChar n else Char.ofNat (87 + n)

/-- Escape one character for inclusion in a JSON string literal: quote and
backslash are escaped, control characters become named escapes or
`\u00XX`, everything else passes through. -/
def escChar (c : Char) : List Char :=
  if c = '"' then ['\\', '"']
  else if c = '\\' then ['\\', '\\']
  else if c = '\x08' then ['\\', 'b']
  else if c = '\x0c' then ['\\', 'f']
  else if c = '\n' then ['\\', 'n']
  else if c = '\r' then ['\\', 'r']
  else if c = '\t' then ['\\', 't']
  else if c.toNat < 32 then
    ['\\', 'u', '0', '0', hexDigitChar (c.toNat / 16), hexDigitChar (c.toNat % 16)]
  else [c]

/-- Escape a whole string. -/
def escapeStr (cs : List Char) : List Char :=
  cs.foldr (fun c acc => escChar c ++ acc) []

/-- Read one hexadecimal digit. -/
def parseHex (c : Char) : Option Nat :=
  if isDigitC c then some (digitVal c)
  else if 97 ≤ c.toNat && c.toNat ≤ 102 then some (c.toNat - 87)
  else if 65 ≤ c.toNat && c.toNat ≤ 70 then some (c.toNat - 55)
  else none

/-- Read a JSON string body after the opening quote, handling escapes, up to
and including the closing quote. -/
def parseStrBody : List Char → Option (List Char × List Char)
  | [] => none
  | c :: cs =>
    if c = '"' then some ([], cs)
    else if c = '\\' then
      match cs with
      | [] => none
      | e :: cs2 =>
        if e = '"' then (parseStrBody cs2).map (fun p => ('"' :: p.1, p.2))
        else if e = '\\' then (parseStrBody cs2).map (fun p => ('\\' :: p.1, p.2))
        else if e = '/' then (parseStrBody cs2).map (fun p => ('/' :: p.1, p.2))
        else if e = 'b' then (parseStrBody cs2).map (fun p => ('\x08' :: p.1, p.2))
        else if e = 'f' then (parseStrBody cs2).map (fun p => ('\x0c' :: p.1, p.2))
        else if e = 'n' then (parseStrBody cs2).map (fun p => ('\n' :: p.1, p.2))
        else if e = 'r' then (parseStrBody cs2).map (fun p => ('\r' :: p.1, p.2))
        else if e = 't' then (parseStrBody cs2).map (fun p => ('\t' :: p.1, p.2))
        else if e = 'u' then
          match cs2 with
          | h1 :: h2 :: h3 :: h4 :: cs3 =>
            match parseHex h1, parseHex h2, parseHex h3, parseHex h4 with
            | some a, some b, some c3, some d =>
              (parseStrBody cs3).map
                (fun p => (Char.ofNat (((a * 16 + b) * 16 + c3) * 16 + d) :: p.1, p.2))
            | _, _, _, _ => none
          | _ => none
        else none
    else (parseStrBody cs).map (fun p => (c :: p.1, p.2))

/-! ## Document rendering (spec-modelled store printer)

`cJSON_Print` produces indented multi-line text; `cJSON_PrintUnformatted`
produces compact text.  Both are modelled by one renderer taking a
formatting flag: the pretty mode inserts a newline and tab indentation
after every opening bracket and comma and a space after each colon. -/

/-- Indentation characters. -/
def tabs (d : Nat) : List Char := List.replicate d '\t'

/-- Line break plus indentation in pretty mode, nothing in compact mode. -/
def nlIndent (fmt : Bool) (d : Nat) : List Char :=
  if fmt then '\n' :: tabs d else []

mutual

/-- Render one document tree as JSON text. -/
def render (fmt : Bool) (d : Nat) : JVal → List Char
  | .jnull => ['n', 'u', 'l', 'l']
  | .jbool true => ['t', 'r', 'u', 'e']
  | .jbool false => ['f', 'a', 'l', 's', 'e']
  | .jnum q => numRepr q
  | .jstr s => '"' :: (escapeStr s.data ++ ['"'])
  | .jarr [] => ['[', ']']
  | .jarr (x :: tl) =>
    '[' :: (nlIndent fmt (d + 1) ++ render fmt (d + 1) x ++
      renderItems fmt (d + 1) tl ++ nlIndent fmt d ++ [']'])
  | .jobj [] => ['\x7b', '\x7d']
  | .jobj (kv :: tl) =>
    '\x7b' :: (nlIndent fmt (d + 1) ++ renderField fmt (d + 1) kv ++
      renderFields fmt (d + 1) tl ++ nlIndent fmt d ++ ['\x7d'])

/-- Render the remaining array elements, each preceded by a comma. -/
def renderItems (fmt : Bool) (d : Nat) : List JVal → List Char
  | [] => []
  | x :: tl => ',' :: (nlIndent fmt d ++ render fmt d x ++ renderItems fmt d tl)

/-- Render one object member: quoted key, colon, value. -/
def renderField (fmt : Bool) (d : Nat) (kv : String × JVal) : List Char :=
  '"' :: (escapeStr kv.1.data ++ '"' :: ':' ::
    ((if fmt then [' '] else []) ++ render fmt d kv.2))

/-- Render the remaining object members, each preceded by a comma. -/
def renderFields (fmt : Bool) (d : Nat) : List (String × JVal) → List Char
  | [] => []
  | kv :: tl => ',' :: (nlIndent fmt d ++ renderField fmt d kv ++ renderFields fmt d tl)

end

/-! ## Document reading (spec-modelled store tokenizer) -/

mutual

/-- Read one JSON value after skipping whitespace.  The fuel argument only
bounds the recursion depth; any fuel at least `sizeV` of the encoded value
suffices. -/
def parseVal : Nat → List Char → Option (JVal × List Char)
  | 0, _ => none
  | fuel + 1, cs =>
    match skipWs cs with
    | [] => none
    | c :: cs1 =>
      if c = 'n' then
        match cs1 with
        | 'u' :: 'l' :: 'l' :: rest => some (.jnull, rest)
        | _ => none
      else if c = 't' then
        match cs1 with
        | 'r' :: 'u' :: 'e' :: rest => some (.jbool true, rest)
        | _ => none
      else if c = 'f' then
        match cs1 with
        | 'a' :: 'l' :: 's' :: 'e' :: rest => some (.jbool false, rest)
        | _ => none
      else if c = '"' then
        match parseStrBody cs1 with
        | some (scs, r) => some (.jstr (String.mk scs), r)
        | none => none
      else if c = '[' then
        if (skipWs cs1).head? = some (']') then some (.jarr [], (skipWs cs1).tail)
        else
          match parseItems fuel cs1 with
          | some (vs, r) => some (.jarr vs, r)
          | none => none
      else if c = '\x7b' then
        if (skipWs cs1).head? = some ('\x7d') then some (.jobj [], (skipWs cs1).tail)
        else
          match parseFields fuel cs1 with
          | some (kvs, r) => some (.jobj kvs, r)
          | none => none
      else if c = '-' ∨ isDigitC c then
        match parseNum (c :: cs1) with
        | some (q, r) => some (.jnum q, r)
        | none => none
      else none

/-- Read a non-empty comma-separated value list up to the closing `]`. -/
def parseItems : Nat → List Char → Option (List JVal × List Char)
  | 0, _ => none
  | fuel + 1, cs =>
    match parseVal fuel cs with
    | none => none
    | some (v, r) =>
      if (skipWs r).head? = some (',') then
        match parseItems fuel (skipWs r).tail with
        | some (vs, r3) => some (v :: vs, r3)
        | none => none
      else if (skipWs r).head? = some (']') then some ([v], (skipWs r).tail)
      else none

/-- Read a non-empty comma-separated member list up to the closing brace. -/
def parseFields : Nat → List Char → Option (List (String × JVal) × List Char)
  | 0, _ => none
  | fuel + 1, cs =>
    if (skipWs cs).head? = some ('"') then
      match parseStrBody (skipWs cs).tail with
      | some (kcs, r1) =>
        if (skipWs r1).head? = some (':') then
          match parseVal fuel (skipWs r1).tail with
          | some (v, r3) =>
            if (skipWs r3).head? = some (',') then
              match parseFields fuel (skipWs r3).tail with
              | some (kvs, r5) => some ((String.mk kcs, v) :: kvs, r5)
              | none => none
            else if (skipWs r3).head? = some ('\x7d') then
              some ([(String.mk kcs, v)], (skipWs r3).tail)
            else none
          | none => none
        else none
      | none => none
    else none

end

/-- Whole-text read, the model of the store's `parse(text) -> Node | null`
(`Modelled from the spec:` the source tree does not carry the cJSON
implementation): a text is well-formed exactly when one JSON value follows
optional whitespace and only whitespace follows it. -/
def textParse (s : String) : Option JVal :=
  match parseVal (2 * s.data.length + 2) s.data with
  | some (v, rest) => if skipWs rest = [] then some v else none
  | none => none

/-- Whole-document rendering, the model of the store's
`print(node, pretty) -> text`. -/
def textPrint (fmt : Bool) (v : JVal) : String := String.mk (render fmt 0 v)

/-- Texts made of insignificant whitespace only. -/
def WsOnly (cs : List Char) : Prop := ∀ c ∈ cs, isWs c = true

/-- A continuation that cannot extend a number token. -/
def NumDelim : List Char → Prop
  | [] => True
  | c :: _ => isDigitC c = false ∧ c ≠ '.' ∧ c ≠ 'e' ∧ c ≠ 'E'

/-- The continuations a rendered value is followed by inside a rendered
document: nothing, a separator, a closing bracket, or a pretty-mode line
break. -/
def Delim : List Char → Prop
  | [] => True
  | c :: _ => c = ',' ∨ c = ']' ∨ c = '\x7d' ∨ c = '\n'

mutual

/-- Every number in the document has a finite decimal expansion (true of
every document built through the typed constructors, whose numbers are
machine integers and dyadic machine doubles). -/
def NumsFinite : JVal → Prop
  | .jnull => True
  | .jbool _ => True
  | .jnum q => DecFinite q
  | .jstr _ => True
  | .jarr xs => NumsFiniteL xs
  | .jobj kvs => NumsFiniteF kvs

/-- `NumsFinite` over array elements. -/
def NumsFiniteL : List JVal → Prop
  | [] => True
  | x :: tl => NumsFinite x ∧ NumsFiniteL tl

/-- `NumsFinite` over object members. -/
def NumsFiniteF : List (String × JVal) → Prop
  | [] => True
  | kv :: tl => NumsFinite kv.2 ∧ NumsFiniteF tl

end

/-! ## The node store

Modelled from the spec: the cJSON implementation is not part of the source
tree; §6 gives its contract (kind-tagged nodes, create-by-value, link a
child node into a parent's structure by reference without transferring
ownership, detach-by-name/index, non-idempotent delete).  Nodes live in a
heap addressed by numeric pointers; a ghost list records every pointer
passed to `deleteNode` so that deletion counts are observable. -/

/-- Node kinds, the values of the C tag `type & 0xff`. -/
inductive CType : Type where
  | cFalse | cTrue | cNULL | cNumber | cString | cArray | cObject
  deriving DecidableEq

/-- A raw tree node.  `valueint` and `valuedouble` both carry the numeric
payload as in cJSON; object children are (key, pointer) entries and array
children unnamed pointers, in document order. -/
structure CNode where
  type : CType
  valuedouble : Rat
  valueint : Int
  valuestring : String
  children : List (Option String × Nat)
  deriving DecidableEq

/-- Truncation toward zero of a rational, the C cast `(int)d`. -/
def ratTrunc (q : Rat) : Int := q.num.tdiv (q.den : Int)

/-- `cJSON_CreateNumber`: both integer and double fields are filled, the
integer by truncation toward zero. -/
def mkNumberNode (q : Rat) : CNode := ⟨.cNumber, q, ratTrunc q, "", []⟩

/-- A scalar / container node with no numeric payload. -/
def mkPlainNode (t : CType) : CNode := ⟨t, 0, 0, "", []⟩

/-- `cJSON_CreateString`. -/
def mkStringNode (s : String) : CNode := ⟨.cString, 0, 0, s, []⟩

/-- The node heap: allocated nodes, a fresh-pointer counter, and the ghost
multiset of pointers handed to `deleteNode`. -/
structure Store where
  mem : List (Nat × CNode)
  next : Nat
  deleted : List Nat
  deriving DecidableEq

/-- The empty heap. -/
def Store.empty : Store := ⟨[], 0, []⟩

/-- Pointer dereference. -/
def Store.get (st : Store) (p : Nat) : Option CNode := st.mem.lookup p

/-- Allocate a fresh node. -/
def Store.alloc (st : Store) (n : CNode) : Nat × Store :=
  (st.next, ⟨st.mem ++ [(st.next, n)], st.next + 1, st.deleted⟩)

/-- Overwrite the node at `p`. -/
def Store.update (st : Store) (p : Nat) (n : CNode) : Store :=
  ⟨st.mem.map (fun e => if e.1 = p then (p, n) else e), st.next, st.deleted⟩

/-- `deleteNode` (spec: NOT idempotent, callers must delete each node
exactly once).  The node is reclaimed and the ghost delete count of its
pointer grows by one. -/
def Store.deleteNode (st : Store) (p : Nat) : Store :=
  ⟨st.mem.filter (fun e => e.1 != p), st.next, st.deleted ++ [p]⟩

/-- Ghost observation: how many times the node at `p` has been deleted. -/
def Store.deleteCount (st : Store) (p : Nat) : Nat := st.deleted.count p

/-- Heap extension: every readable node stays readable with the same
contents. -/
def Store.le (st st' : Store) : Prop :=
  ∀ p n, st.get p = some n → st'.get p = some n

/-- Well-formed heap: every allocated pointer lies below the fresh-pointer
counter. -/
def WFStore (st : Store) : Prop := ∀ e ∈ st.mem, e.1 < st.next

mutual

/-- Build the node tree of a document bottom-up in the heap, as the store's
parser does, returning the root pointer. -/
def buildVal (st : Store) : JVal → Nat × Store
  | .jnull => st.alloc (mkPlainNode .cNULL)
  | .jbool true => st.alloc (mkPlainNode .cTrue)
  | .jbool false => st.alloc (mkPlainNode .cFalse)
  | .jnum q => st.alloc (mkNumberNode q)
  | .jstr s => st.alloc (mkStringNode s)
  | .jarr xs =>
    let r := buildItems st xs
    r.2.alloc { mkPlainNode .cArray with children := r.1 }
  | .jobj kvs =>
    let r := buildMembers st kvs
    r.2.alloc { mkPlainNode .cObject with children := r.1 }

/-- Build array elements in order. -/
def buildItems (st : Store) : List JVal → List (Option String × Nat) × Store
  | [] => ([], st)
  | x :: tl =>
    let r := buildVal st x
    let rs := buildItems r.2 tl
    ((none, r.1) :: rs.1, rs.2)

/-- Build object members in order. -/
def buildMembers (st : Store) :
    List (String × JVal) → List (Option String × Nat) × Store
  | [] => ([], st)
  | kv :: tl =>
    let r := buildVal st kv.2
    let rs := buildMembers r.2 tl
    ((some kv.1, r.1) :: rs.1, rs.2)

end

mutual

/-- Read the document tree rooted at a pointer back out of the heap
(fuel-bounded: any fuel at least the tree's depth suffices; a cyclic or
dangling structure yields `none`). -/
def readback : Nat → Store → Nat → Option JVal
  | 0, _, _ => none
  | fuel + 1, st, p =>
    match st.get p with
    | some n =>
      match n.type with
      | .cNULL => some .jnull
      | .cTrue => some (.jbool true)
      | .cFalse => some (.jbool false)
      | .cNumber => some (.jnum n.valuedouble)
      | .cString => some (.jstr n.valuestring)
      | .cArray => (readItems fuel st n.children).map .jarr
      | .cObject => (readMembers fuel st n.children).map .jobj
    | none => none

/-- Read array elements back in order. -/
def readItems : Nat → Store → List (Option String × Nat) → Option (List JVal)
  | 0, _, _ => none
  | _ + 1, _, [] => some []
  | fuel + 1, st, e :: tl =>
    match readback fuel st e.2 with
    | some v => (readItems fuel st tl).map (v :: ·)
    | none => none

/-- Read object members back in order (an unnamed child reads as key `""`). -/
def readMembers : Nat → Store → List (Option String × Nat) →
    Option (List (String × JVal))
  | 0, _, _ => none
  | _ + 1, _, [] => some []
  | fuel + 1, st, e :: tl =>
    match readback fuel st e.2 with
    | some v => (readMembers fuel st tl).map ((e.1.getD "", v) :: ·)
    | none => none

end

/-- `cJSON_Parse` (spec-modelled): well-formed text builds a fresh tree and
returns its root; anything else returns null and builds nothing. -/
def cJSONParse (st : Store) (s : String) : Option (Nat × Store) :=
  (textParse s).map (buildVal st)

/-! ## The wrapper heap

`JSONObject` from the source header, version 0.3: a shared `Holder`
(node pointer plus ownership flag) and a shared `std::set<JSONObject>`
keepalive set.  Shared pointers are modelled by explicit reference counts;
the `World` carries the node heap, the live holder records with their
counts, and the live keepalive sets with theirs. -/

/-- `struct Holder`: a node pointer with the ownership flag; destroying the
last shared reference runs `cJSON_Delete` on owned nodes. -/
structure Holder where
  o : Nat
  own_ : Bool
  deriving DecidableEq

/-- `class JSONObject`: the two shared-pointer members.  The scalar
constructors of version 0.3 leave `refs_` default-initialized (null),
hence the option. -/
structure JSONObject where
  obj_ : Nat
  refs_ : Option Nat
  deriving DecidableEq

/-- The full mutable state: node heap, holder records and their shared
reference counts, keepalive sets and theirs. -/
structure World where
  store : Store
  holders : List (Nat × Holder)
  hrc : List (Nat × Nat)
  nextH : Nat
  sets : List (Nat × List JSONObject)
  src : List (Nat × Nat)
  nextS : Nat
  deriving DecidableEq

/-- The initial empty state. -/
def World.empty : World := ⟨Store.empty, [], [], 0, [], [], 0⟩

/-- Replace the value under a key in an association list. -/
def alSet {α : Type} (k : Nat) (v : α) (l : List (Nat × α)) : List (Nat × α) :=
  l.map (fun e => if e.1 = k then (k, v) else e)

/-- Drop a key from an association list. -/
def alDel {α : Type} (k : Nat) (l : List (Nat × α)) : List (Nat × α) :=
  l.filter (fun e => e.1 != k)

/-- Allocate a fresh `Holder` record with one shared reference. -/
def World.newHolder (w : World) (p : Nat) (own : Bool) : Nat × World :=
  (w.nextH,
    { w with
      holders := w.holders ++ [(w.nextH, ⟨p, own⟩)]
      hrc := w.hrc ++ [(w.nextH, 1)]
      nextH := w.nextH + 1 })

/-- Allocate a fresh, empty keepalive set with one shared reference. -/
def World.newSet (w : World) : Nat × World :=
  (w.nextS,
    { w with
      sets := w.sets ++ [(w.nextS, [])]
      src := w.src ++ [(w.nextS, 1)]
      nextS := w.nextS + 1 })

/-- One more shared reference to a holder record. -/
def World.retainHolder (w : World) (hid : Nat) : World :=
  match w.hrc.lookup hid with
  | some n => { w with hrc := alSet hid (n + 1) w.hrc }
  | none => w

/-- One more shared reference to a keepalive set (no-op on a null pointer). -/
def World.retainSet (w : World) (sref : Option Nat) : World :=
  match sref with
  | none => w
  | some s =>
    match w.src.lookup s with
    | some n => { w with src := alSet s (n + 1) w.src }
    | none => w

/-- Drop one shared reference to a holder record; the last drop destroys the
record, and `~Holder` deletes the node when the ownership flag is set. -/
def World.releaseHolder (w : World) (hid : Nat) : World :=
  match w.hrc.lookup hid with
  | some 1 =>
    let st :=
      match w.holders.lookup hid with
      | some h => if h.own_ then w.store.deleteNode h.o else w.store
      | none => w.store
    { w with store := st, holders := alDel hid w.holders, hrc := alDel hid w.hrc }
  | some (n + 2) => { w with hrc := alSet hid (n + 1) w.hrc }
  | _ => w

/-- Run the `JSONObject` destructor on each listed wrapper: drop its holder
reference, then its keepalive-set reference; a set whose last reference
drops destroys its elements in turn.  Fuel bounds the cascade (any fuel
beyond the total number of live references suffices for the states arising
here). -/
def destroyList : Nat → World → List JSONObject → World
  | 0, w, _ => w
  | _ + 1, w, [] => w
  | fuel + 1, w, j :: rest =>
    let w1 := w.releaseHolder j.obj_
    let w2 :=
      match j.refs_ with
      | none => w1
      | some s =>
        match w1.src.lookup s with
        | some 1 =>
          let elems := (w1.sets.lookup s).getD []
          destroyList fuel
            { w1 with sets := alDel s w1.sets, src := alDel s w1.src } elems
        | some (n + 2) => { w1 with src := alSet s (n + 1) w1.src }
        | _ => w1
    destroyList fuel w2 rest

/-- `~JSONObject` for a single wrapper value. -/
def jsonDestroy (fuel : Nat) (w : World) (j : JSONObject) : World :=
  destroyList fuel w [j]

/-- The node pointer a wrapper's holder carries. -/
def World.ptrOf (w : World) (j : JSONObject) : Option Nat :=
  (w.holders.lookup j.obj_).map Holder.o

/-- The node a wrapper refers to. -/
def World.nodeOf (w : World) (j : JSONObject) : Option CNode :=
  match w.holders.lookup j.obj_ with
  | some h => w.store.get h.o
  | none => none

/-! ### Constructors (from the source header) -/

/-- `JSONObject()`: fresh owned empty-object node plus a fresh keepalive
set. -/
def mkJSONObject (w : World) : JSONObject × World :=
  let a := w.store.alloc (mkPlainNode .cObject)
  let h := World.newHolder { w with store := a.2 } a.1 true
  let s := h.2.newSet
  (⟨h.1, some s.1⟩, s.2)

/-- `JSONObject(cJSON* obj, bool own)`: wrap an existing node; fresh holder
and fresh keepalive set. -/
def wrapNode (w : World) (p : Nat) (own : Bool) : JSONObject × World :=
  let h := w.newHolder p own
  let s := h.2.newSet
  (⟨h.1, some s.1⟩, s.2)

/-- Shared part of the scalar constructors of version 0.3: fresh owned node,
`refs_` left null. -/
def mkScalar (w : World) (n : CNode) : JSONObject × World :=
  let a := w.store.alloc n
  let h := World.newHolder { w with store := a.2 } a.1 true
  (⟨h.1, none⟩, h.2)

/-- `JSONObject(bool value)`. -/
def mkBool (w : World) (b : Bool) : JSONObject × World :=
  mkScalar w (mkPlainNode (if b then .cTrue else .cFalse))

/-- `JSONObject(double value)`. -/
def mkDouble (w : World) (q : Rat) : JSONObject × World :=
  mkScalar w (mkNumberNode q)

/-- `JSONObject(int value)`: the integer is widened to the double payload. -/
def mkInt (w : World) (v : Int) : JSONObject × World :=
  mkScalar w (mkNumberNode (v : Rat))

/-- `JSONObject(int64_t value)`: same widening. -/
def mkInt64 (w : World) (v : Int) : JSONObject × World :=
  mkScalar w (mkNumberNode (v : Rat))

/-- `JSONObject(const char* value)` / `JSONObject(const std::string&)`. -/
def mkString (w : World) (s : String) : JSONObject × World :=
  mkScalar w (mkStringNode s)

/-- Copy constructor: aliases the same holder record and the same keepalive
set, adding one shared reference to each; nothing in the node heap or in
any set is copied. -/
def copyJSONObject (w : World) (j : JSONObject) : JSONObject × World :=
  (j, (w.retainHolder j.obj_).retainSet j.refs_)

/-- Copy assignment `target = source` (distinct wrapper objects): the target
re-points both shared members at the source's, retaining the source's
records and releasing its own old ones. -/
def assignJSONObject (fuel : Nat) (w : World) (tgt src_ : JSONObject) :
    JSONObject × World :=
  let w1 := (w.retainHolder src_.obj_).retainSet src_.refs_
  (src_, jsonDestroy fuel w1 tgt)

/-! ### Free functions -/

/-- `cjsonpp::parse`: null from the store's parser raises `Parse error`,
otherwise the fresh root is wrapped owning. -/
def parse (w : World) (s : String) : Except String JSONObject × World :=
  match cJSONParse w.store s with
  | some (p, st) =>
    let r := wrapNode { w with store := st } p true
    (.ok r.1, r.2)
  | none => (.error "Parse error", w)

/-- `cjsonpp::nullObject()`. -/
def nullObject (w : World) : JSONObject × World :=
  let a := w.store.alloc (mkPlainNode .cNULL)
  wrapNode { w with store := a.2 } a.1 true

/-- `cjsonpp::arrayObject()`. -/
def arrayObject (w : World) : JSONObject × World :=
  let a := w.store.alloc (mkPlainNode .cArray)
  wrapNode { w with store := a.2 } a.1 true

/-- `JSONObject::print(bool formatted)`: delegate to the store's printer on
the wrapper's node (fuel bounds the tree walk). -/
def JSONObject.printS (fuel : Nat) (w : World) (self : JSONObject)
    (fmt : Bool) : Option String :=
  match w.holders.lookup self.obj_ with
  | some h => (readback fuel w.store h.o).map (textPrint fmt)
  | none => none

/-! ### Typed accessors (from the source header) -/

/-- `as<int>`: `valueint` unless the node is not a number. -/
def asIntNode (n : CNode) : Except String Int :=
  if n.type = .cNumber then .ok n.valueint else .error "Bad value type"

/-- `as<int64_t>`: the double payload truncated toward zero. -/
def asInt64Node (n : CNode) : Except String Int :=
  if n.type = .cNumber then .ok (ratTrunc n.valuedouble)
  else .error "Not a number type"

/-- `as<double>`. -/
def asDoubleNode (n : CNode) : Except String Rat :=
  if n.type = .cNumber then .ok n.valuedouble else .error "Not a number type"

/-- `as<std::string>`. -/
def asStringNode (n : CNode) : Except String String :=
  if n.type = .cString then .ok n.valuestring else .error "Not a string type"

/-- `as<bool>`: true on a True node, false on a False node, type mismatch on
everything else. -/
def asBoolNode (n : CNode) : Except String Bool :=
  if n.type = .cTrue then .ok true
  else if n.type = .cFalse then .ok false
  else .error "Not a boolean type"

/-- The `what()` strings of the `as<T>` type-mismatch failures, the spec's
TypeMismatch taxonomy class. -/
def TypeMismatchMsgs : List String :=
  ["Bad value type", "Not a number type", "Not a string type", "Not a boolean type"]

/-- `cJSON_GetObjectItem` (spec-modelled): first child carrying the name. -/
def lookupChildName : List (Option String × Nat) → String → Option Nat
  | [], _ => none
  | (some k, p) :: tl, name => if k = name then some p else lookupChildName tl name
  | (none, _) :: tl, name => lookupChildName tl name

/-- `get<T>(const char* name)`, the part shared by every `T`: object-kind
check, then name lookup, then the child pointer for `as<T>`. -/
def getItemByName (w : World) (self : JSONObject) (name : String) :
    Except String Nat :=
  match w.nodeOf self with
  | some n =>
    if n.type = .cObject then
      match lookupChildName n.children name with
      | some p => .ok p
      | none => .error "No such item"
    else .error "Not an object"
  | none => .error "Not an object"

/-- `cJSON_GetArrayItem` (spec-modelled): the i-th child. -/
def getItemByIndex (w : World) (self : JSONObject) (i : Nat) :
    Except String Nat :=
  match w.nodeOf self with
  | some n =>
    if n.type = .cArray then
      match n.children.get? i with
      | some e => .ok e.2
      | none => .error "No such item"
    else .error "Not an array type"
  | none => .error "Not an array type"

/-- Apply a scalar extractor to the node at a pointer. -/
def extractAt {α : Type} (w : World) (ext : CNode → Except String α) (p : Nat) :
    Except String α :=
  match w.store.get p with
  | some n => ext n
  | none => .error "Bad value type"

/-- `get<T>(name)` for a scalar `T`. -/
def getScalarByName {α : Type} (w : World) (self : JSONObject) (name : String)
    (ext : CNode → Except String α) : Except String α :=
  match getItemByName w self name with
  | .ok p => extractAt w ext p
  | .error e => .error e

/-- `get<T>(int index)` for a scalar `T`. -/
def getScalarByIndex {α : Type} (w : World) (self : JSONObject) (i : Nat)
    (ext : CNode → Except String α) : Except String α :=
  match getItemByIndex w self i with
  | .ok p => extractAt w ext p
  | .error e => .error e

/-- `get<JSONObject>(name)`: the located child is wrapped as a non-owning
alias (`as<JSONObject>` is `JSONObject(obj, false)`). -/
def getJSONObjectByName (w : World) (self : JSONObject) (name : String) :
    Except String JSONObject × World :=
  match getItemByName w self name with
  | .ok p =>
    let r := wrapNode w p false
    (.ok r.1, r.2)
  | .error e => (.error e, w)

/-- `get<JSONObject>(int index)`. -/
def getJSONObjectByIndex (w : World) (self : JSONObject) (i : Nat) :
    Except String JSONObject × World :=
  match getItemByIndex w self i with
  | .ok p =>
    let r := wrapNode w p false
    (.ok r.1, r.2)
  | .error e => (.error e, w)

/-- `as<JSONObject>()` on the wrapper itself: non-owning alias of the own
node (with a fresh keepalive set, like every navigation result). -/
def asJSONObjectSelf (w : World) (self : JSONObject) :
    Except String JSONObject × World :=
  match w.ptrOf self with
  | some p =>
    let r := wrapNode w p false
    (.ok r.1, r.2)
  | none => (.error "Bad value type", w)

/-- The element loop of `asArray<T>`: `as<T>` applied to each child in
document order, first failure aborting. -/
def mapChildren {α : Type} (w : World) (ext : CNode → Except String α) :
    List (Option String × Nat) → Except String (List α)
  | [] => .ok []
  | e :: tl =>
    match extractAt w ext e.2 with
    | .ok a =>
      match mapChildren w ext tl with
      | .ok l => .ok (a :: l)
      | .error msg => .error msg
    | .error msg => .error msg

/-- `asArray<T, std::vector>()`. -/
def asArrayWith {α : Type} (w : World) (self : JSONObject)
    (ext : CNode → Except String α) : Except String (List α) :=
  match w.nodeOf self with
  | some n =>
    if n.type = .cArray then mapChildren w ext n.children
    else .error "Not an array type"
  | none => .error "Not an array type"

/-! ### Structural mutation (from the source header) -/

/-- `cJSON_AddItemReferenceToArray` (spec-modelled: link the child node
into the parent's element list without transferring ownership). -/
def addItemReferenceToArray (w : World) (self child : JSONObject) : World :=
  match w.holders.lookup self.obj_, w.holders.lookup child.obj_ with
  | some hp, some hc =>
    match w.store.get hp.o with
    | some n =>
      let st := w.store.update hp.o { n with children := n.children ++ [(none, hc.o)] }
      { w with store := st }
    | none => w
  | _, _ => w

/-- `cJSON_AddItemReferenceToObject` (spec-modelled). -/
def addItemReferenceToObject (w : World) (self : JSONObject) (name : String)
    (child : JSONObject) : World :=
  match w.holders.lookup self.obj_, w.holders.lookup child.obj_ with
  | some hp, some hc =>
    match w.store.get hp.o with
    | some n =>
      let st := w.store.update hp.o { n with children := n.children ++ [(some name, hc.o)] }
      { w with store := st }
    | none => w
  | _, _ => w

/-- `refs_->insert(o)`: the `std::set` is keyed by the node pointer
(`operator<` compares `obj_->o`), so an equivalent element blocks the
insertion; otherwise a copy of the wrapper enters the set, retaining its
shared records.  A null `refs_` cannot be reached here because every
wrapper passing the container-kind checks was built by a constructor that
allocates the set. -/
def refsInsert (w : World) (sref : Option Nat) (o : JSONObject) : World :=
  match sref with
  | none => w
  | some s =>
    match w.sets.lookup s with
    | some elems =>
      if elems.any (fun e => w.ptrOf e == w.ptrOf o) then w
      else
        let w1 := (w.retainHolder o.obj_).retainSet o.refs_
        { w1 with sets := alSet s (elems ++ [o]) w1.sets }
    | none => w

/-- `add<T>(value)` with the transient `JSONObject o(value)` abstracted as a
constructor action: array-kind check, then construct, link by reference,
record into the keepalive set, and destroy the local wrapper. -/
def addRaw (fuel : Nat) (w : World) (self : JSONObject)
    (mk : World → JSONObject × World) : Except String Unit × World :=
  match w.nodeOf self with
  | some n =>
    if n.type = .cArray then
      let om := mk w
      let w2 := addItemReferenceToArray om.2 self om.1
      let w3 := refsInsert w2 self.refs_ om.1
      (.ok (), jsonDestroy fuel w3 om.1)
    else (.error "Not an array type", w)
  | none => (.error "Not an array type", w)

/-- `set<T>(name, value)`: object-kind check, then the same
construct-link-record-destroy sequence keyed by name. -/
def setRaw (fuel : Nat) (w : World) (self : JSONObject) (name : String)
    (mk : World → JSONObject × World) : Except String Unit × World :=
  match w.nodeOf self with
  | some n =>
    if n.type = .cObject then
      let om := mk w
      let w2 := addItemReferenceToObject om.2 self name om.1
      let w3 := refsInsert w2 self.refs_ om.1
      (.ok (), jsonDestroy fuel w3 om.1)
    else (.error "Not an object type", w)
  | none => (.error "Not an object type", w)

/-- Detach the first child under `name`, returning its pointer and the
remaining child list. -/
def detachChildName : List (Option String × Nat) → String →
    Option (Nat × List (Option String × Nat))
  | [], _ => none
  | (some k, p) :: tl, name =>
    if k = name then some (p, tl)
    else (detachChildName tl name).map (fun r => (r.1, (some k, p) :: r.2))
  | (none, p) :: tl, name =>
    (detachChildName tl name).map (fun r => (r.1, (none, p) :: r.2))

/-- Detach the i-th child. -/
def detachChildIndex : List (Option String × Nat) → Nat →
    Option (Nat × List (Option String × Nat))
  | [], _ => none
  | e :: tl, 0 => some (e.2, tl)
  | e :: tl, i + 1 => (detachChildIndex tl i).map (fun r => (r.1, e :: r.2))

/-- `cJSON_DetachItemFromObject` (spec-modelled): unlink the named child
from the parent's structure and hand its pointer back. -/
def detachFromObject (w : World) (self : JSONObject) (name : String) :
    Option (Nat × World) :=
  match w.holders.lookup self.obj_ with
  | some hp =>
    match w.store.get hp.o with
    | some n =>
      match detachChildName n.children name with
      | some (d, ch) =>
        some (d, { w with store := w.store.update hp.o ({ n with children := ch }) })
      | none => none
    | none => none
  | none => none

/-- `cJSON_DetachItemFromArray` (spec-modelled). -/
def detachFromArray (w : World) (self : JSONObject) (i : Nat) :
    Option (Nat × World) :=
  match w.holders.lookup self.obj_ with
  | some hp =>
    match w.store.get hp.o with
    | some n =>
      match detachChildIndex n.children i with
      | some (d, ch) =>
        some (d, { w with store := w.store.update hp.o ({ n with children := ch }) })
      | none => none
    | none => none
  | none => none

/-- Split the keepalive set at the first element whose holder carries the
detached pointer, as the eviction loop in `remove` does. -/
def findEvict (w : World) : List JSONObject → Nat →
    Option (JSONObject × List JSONObject)
  | [], _ => none
  | e :: tl, d =>
    if w.ptrOf e = some d then some (e, tl)
    else (findEvict w tl d).map (fun r => (r.1, e :: r.2))

/-- The eviction loop of `remove`: erase the matching element from the
keepalive set (destroying the erased wrapper) if one is present. -/
def refsEvict (fuel : Nat) (w : World) (sref : Option Nat) (d : Nat) : World :=
  match sref with
  | none => w
  | some s =>
    match w.sets.lookup s with
    | some elems =>
      match findEvict w elems d with
      | some (e, rest) =>
        destroyList fuel { w with sets := alSet s rest w.sets } [e]
      | none => w
    | none => w

/-- `remove(const char* name)`: object-kind check, detach (absence raises
`No such item` before any mutation), evict from the keepalive set, then
delete the detached node. -/
def removeName (fuel : Nat) (w : World) (self : JSONObject) (name : String) :
    Except String Unit × World :=
  match w.nodeOf self with
  | some n =>
    if n.type = .cObject then
      match detachFromObject w self name with
      | some (d, w1) =>
        let w2 := refsEvict fuel w1 self.refs_ d
        (.ok (), { w2 with store := w2.store.deleteNode d })
      | none => (.error "No such item", w)
    else (.error "Not an object type", w)
  | none => (.error "Not an object type", w)

/-- `remove(int index)`. -/
def removeIndex (fuel : Nat) (w : World) (self : JSONObject) (i : Nat) :
    Except String Unit × World :=
  match w.nodeOf self with
  | some n =>
    if n.type = .cArray then
      match detachFromArray w self i with
      | some (d, w1) =>
        let w2 := refsEvict fuel w1 self.refs_ d
        (.ok (), { w2 with store := w2.store.deleteNode d })
      | none => (.error "No such item", w)
    else (.error "Not an array type", w)
  | none => (.error "Not an array type", w)

/-! ### Well-formed worlds and wrapper scenarios -/

/-- Well-formed world: a well-formed heap, and every holder / keepalive-set
identifier below its fresh counter. -/
def WFWorld (w : World) : Prop :=
  WFStore w.store ∧ (∀ e ∈ w.holders, e.1 < w.nextH) ∧
    (∀ e ∈ w.sets, e.1 < w.nextS)

/-- A wrapper whose shared records are live in the world. -/
def livesIn (j : JSONObject) (w : World) : Prop :=
  j.obj_ ∈ w.holders.map Prod.fst ∧
    ∀ s, j.refs_ = some s → s ∈ w.sets.map Prod.fst

/-- An owned wrapper over a freshly built document tree, the shape the
typed constructors and `parse` produce. -/
def buildWrapped (w : World) (v : JVal) : JSONObject × World :=
  let a := buildVal w.store v
  wrapNode { w with store := a.2 } a.1 true

/-! ### Concrete runs of the shipped example program (`main.cpp`) -/

/-- `JSONObject obj;` -/
def demoObj : JSONObject := (mkJSONObject World.empty).1

/-- The world after `JSONObject obj;`. -/
def demoW1 : World := (mkJSONObject World.empty).2

/-- The world after `obj.set("intval", 1234);`. -/
def demoW2 : World := (setRaw 8 demoW1 demoObj "intval" (fun w => mkInt w 1234)).2

/-- The run of `obj.remove("intval");`. -/
def demoRemove : Except String Unit × World := removeName 8 demoW2 demoObj "intval"

/-- `JSONObject arr = cjsonpp::arrayObject();` -/
def demoArr : JSONObject := (arrayObject World.empty).1

/-- The world after `arrayObject()`. -/
def demoAW1 : World := (arrayObject World.empty).2

/-- The world after `arr.add("s1");`. -/
def demoAW2 : World := (addRaw 8 demoAW1 demoArr (fun w => mkString w "s1")).2

/-- The world after `arr.add("s2");`. -/
def demoAW3 : World := (addRaw 8 demoAW2 demoArr (fun w => mkString w "s2")).2

/-- The document `{"arrval": ["s1", "s2"]}` of the example program. -/
def demoDoc : JVal :=
  JVal.jobj [("arrval", JVal.jarr [JVal.jstr "s1", JVal.jstr "s2"])]

/-! # Lemmas

## Characters and digits -/

theorem toNat_ofNat_lt {n : Nat} (h : n < 55296) : (Char.ofNat n).toNat = n := by
  rw [Char.ofNat, dif_pos (Or.inl h)]
  rfl

theorem char_ne_of_toNat_ne {c d : Char} (h : c.toNat ≠ d.toNat) : c ≠ d :=
  fun he => h (by rw [he])

theorem digitChar_toNat {d : Nat} (h : d < 10) : (digitChar d).toNat = 48 + d :=
  toNat_ofNat_lt (by omega)

theorem isDigitC_digitChar {d : Nat} (h : d < 10) :
    isDigitC (digitChar d) = true := by
  simp only [isDigitC, digitChar_toNat h, Bool.and_eq_true, decide_eq_true_eq]
  omega

theorem digitVal_digitChar {d : Nat} (h : d < 10) : digitVal (digitChar d) = d := by
  simp [digitVal, digitChar_toNat h]

theorem isDigitC_toNat {c : Char} (h : isDigitC c = true) :
    48 ≤ c.toNat ∧ c.toNat ≤ 57 := by
  simpa [isDigitC] using h

/-- A decimal digit character is not whitespace and not any of the
characters the tokenizer treats specially. -/
theorem digit_not_special {c : Char} (h : isDigitC c = true) :
    isWs c = false ∧ c ≠ 'n' ∧ c ≠ 't' ∧ c ≠ 'f' ∧ c ≠ '"' ∧ c ≠ '[' ∧
    c ≠ '\x7b' ∧ c ≠ '-' ∧ c ≠ '.' ∧ c ≠ 'e' ∧ c ≠ 'E' ∧ c ≠ ',' ∧
    c ≠ ']' ∧ c ≠ '\x7d' ∧ c ≠ ':' := by
  have hb := isDigitC_toNat h
  have hne : ∀ d : Char, c.toNat ≠ d.toNat → c ≠ d :=
    fun d hd => char_ne_of_toNat_ne hd
  have hsp : c ≠ ' ' := by
    refine hne _ ?_
    have hv : (' ').toNat = 32 := by decide
    omega
  have htab : c ≠ '\t' := by
    refine hne _ ?_
    have hv : ('\t').toNat = 9 := by decide
    omega
  have hnl : c ≠ '\n' := by
    refine hne _ ?_
    have hv : ('\n').toNat = 10 := by decide
    omega
  have hcr : c ≠ '\x0d' := by
    refine hne _ ?_
    have hv : ('\x0d').toNat = 13 := by decide
    omega
  refine ⟨by simp [isWs, hsp, htab, hnl, hcr], ?_, ?_, ?_, ?_, ?_, ?_, ?_, ?_,
    ?_, ?_, ?_, ?_, ?_, ?_⟩
  all_goals refine hne _ ?_
  · have hv : ('n').toNat = 110 := by decide
    omega
  · have hv : ('t').toNat = 116 := by decide
    omega
  · have hv : ('f').toNat = 102 := by decide
    omega
  · have hv : ('"').toNat = 34 := by decide
    omega
  · have hv : ('[').toNat = 91 := by decide
    omega
  · have hv : ('\x7b').toNat = 123 := by decide
    omega
  · have hv : ('-').toNat = 45 := by decide
    omega
  · have hv : ('.').toNat = 46 := by decide
    omega
  · have hv : ('e').toNat = 101 := by decide
    omega
  · have hv : ('E').toNat = 69 := by decide
    omega
  · have hv : (',').toNat = 44 := by decide
    omega
  · have hv : (']').toNat = 93 := by decide
    omega
  · have hv : ('\x7d').toNat = 125 := by decide
    omega
  · have hv : (':').toNat = 58 := by decide
    omega

/-! ## Decimal digit strings -/

theorem natDigitsF_congr :
    ∀ n f1 f2 : Nat, n < f1 → n < f2 → natDigitsF f1 n = natDigitsF f2 n := by
  intro n
  induction n using Nat.strong_induction_on with
  | _ n ih =>
    intro f1 f2 h1 h2
    match f1, f2 with
    | g1 + 1, g2 + 1 =>
      by_cases h10 : n < 10
      · simp [natDigitsF, h10]
      · have hdiv : n / 10 < n := Nat.div_lt_self (by omega) (by omega)
        simp only [natDigitsF, if_neg h10]
        rw [ih (n / 10) hdiv (g1) (g2) (by omega) (by omega)]

theorem natDigits_small {n : Nat} (h : n < 10) : natDigits n = [digitChar n] := by
  simp [natDigits, natDigitsF, h]

theorem natDigits_big {n : Nat} (h : 10 ≤ n) :
    natDigits n = natDigits (n / 10) ++ [digitChar (n % 10)] := by
  have hdiv : n / 10 < n := Nat.div_lt_self (by omega) (by omega)
  unfold natDigits
  conv =>
    lhs
    rw [show n + 1 = n + 1 from rfl]
  rw [show natDigitsF (n + 1) n = if n < 10 then [digitChar n]
      else natDigitsF n (n / 10) ++ [digitChar (n % 10)] from rfl]
  rw [if_neg (by omega)]
  rw [natDigitsF_congr (n / 10) n (n / 10 + 1) (by omega) (by omega)]

theorem natDigits_all_digits :
    ∀ n, ∀ c ∈ natDigits n, isDigitC c = true := by
  intro n
  induction n using Nat.strong_induction_on with
  | _ n ih =>
    by_cases h10 : n < 10
    · rw [natDigits_small h10]
      intro c hc
      rw [List.mem_singleton] at hc
      subst hc
      exact isDigitC_digitChar h10
    · rw [natDigits_big (by omega)]
      intro c hc
      rcases List.mem_append.mp hc with h | h
      · exact ih (n / 10) (Nat.div_lt_self (by omega) (by omega)) c h
      · rw [List.mem_singleton] at h
        subst h
        exact isDigitC_digitChar (Nat.mod_lt _ (by omega))

theorem natDigits_ne_nil (n : Nat) : natDigits n ≠ [] := by
  by_cases h10 : n < 10
  · rw [natDigits_small h10]; simp
  · rw [natDigits_big (by omega)]; simp

theorem digitsVal_foldl_acc (xs : List Char) :
    ∀ acc : Nat, xs.foldl (fun a c => 10 * a + digitVal c) acc
      = acc * 10 ^ xs.length + digitsVal xs := by
  induction xs with
  | nil => intro acc; simp [digitsVal]
  | cons c tl ih =>
    intro acc
    have h1 : digitsVal (c :: tl) = digitVal c * 10 ^ tl.length + digitsVal tl := by
      simp only [digitsVal, List.foldl_cons]
      rw [ih (10 * 0 + digitVal c)]
      simp [digitsVal]
    simp only [List.foldl_cons]
    rw [ih (10 * acc + digitVal c), h1]
    simp [List.length_cons]
    ring

theorem digitsVal_append (xs ys : List Char) :
    digitsVal (xs ++ ys) = digitsVal xs * 10 ^ ys.length + digitsVal ys := by
  simp only [digitsVal, List.foldl_append]
  rw [show List.foldl (fun a c => 10 * a + digitVal c)
      (List.foldl (fun a c => 10 * a + digitVal c) 0 xs) ys
      = (List.foldl (fun a c => 10 * a + digitVal c) 0 xs) * 10 ^ ys.length
        + digitsVal ys from digitsVal_foldl_acc ys _]
  simp [digitsVal]

theorem digitsVal_natDigits : ∀ n, digitsVal (natDigits n) = n := by
  intro n
  induction n using Nat.strong_induction_on with
  | _ n ih =>
    by_cases h10 : n < 10
    · rw [natDigits_small h10]
      simp [digitsVal, digitVal_digitChar h10]
    · rw [natDigits_big (by omega), digitsVal_append]
      rw [ih (n / 10) (Nat.div_lt_self (by omega) (by omega))]
      simp [digitsVal, digitVal_digitChar (Nat.mod_lt n (by omega) : n % 10 < 10)]
      omega

theorem digitsVal_cons (c : Char) (tl : List Char) :
    digitsVal (c :: tl) = digitVal c * 10 ^ tl.length + digitsVal tl := by
  simp only [digitsVal, List.foldl_cons]
  rw [digitsVal_foldl_acc]
  simp [digitsVal]

theorem digitsVal_replicate_zero (z : Nat) (xs : List Char) :
    digitsVal (List.replicate z '0' ++ xs) = digitsVal xs := by
  induction z with
  | zero => simp
  | succ z ih =>
    rw [List.replicate_succ, List.cons_append, digitsVal_cons, digitsVal_append]
    rw [digitsVal_append] at ih
    have h0 : digitVal '0' = 0 := by decide
    simp [h0] at ih ⊢
    omega

/-! ## Reading digit runs -/

theorem NumDelim_digitHead {rest : List Char} (h : NumDelim rest) :
    digitHead rest = false := by
  cases rest with
  | nil => rfl
  | cons c tl => simpa [digitHead] using h.1

theorem readDigits_stop {rest : List Char} (h : digitHead rest = false)
    (acc cnt : Nat) : readDigits acc cnt rest = (acc, cnt, rest) := by
  cases rest with
  | nil => rfl
  | cons c tl => simp [readDigits, show isDigitC c = false by simpa [digitHead] using h]

theorem readDigits_run (xs : List Char) (hxs : ∀ c ∈ xs, isDigitC c = true)
    {rest : List Char} (hrest : digitHead rest = false) :
    ∀ acc cnt, readDigits acc cnt (xs ++ rest)
      = (acc * 10 ^ xs.length + digitsVal xs, cnt + xs.length, rest) := by
  induction xs with
  | nil =>
    intro acc cnt
    simp [readDigits_stop hrest, digitsVal]
  | cons c tl ih =>
    intro acc cnt
    have hc : isDigitC c = true := hxs c (List.mem_cons_self c tl)
    rw [List.cons_append, readDigits, if_pos hc,
      ih (fun x hx => hxs x (List.mem_cons_of_mem c hx)) _ _, digitsVal_cons]
    have h1 : (10 * acc + digitVal c) * 10 ^ tl.length + digitsVal tl
        = acc * 10 ^ (c :: tl).length + (digitVal c * 10 ^ tl.length + digitsVal tl) := by
      simp only [List.length_cons, pow_succ]
      ring
    have h2 : cnt + 1 + tl.length = cnt + (c :: tl).length := by
      simp only [List.length_cons]
      omega
    rw [h1, h2]

/-! ## Whitespace -/

theorem skipWs_append {pre : List Char} (h : WsOnly pre) (cs : List Char) :
    skipWs (pre ++ cs) = skipWs cs := by
  induction pre with
  | nil => rfl
  | cons c tl ih =>
    rw [List.cons_append, skipWs, if_pos (h c (List.mem_cons_self c tl))]
    exact ih (fun x hx => h x (List.mem_cons_of_mem c hx))

theorem skipWs_cons_nonWs {c : Char} (h : isWs c = false) (cs : List Char) :
    skipWs (c :: cs) = c :: cs := by
  simp [skipWs, h]

theorem wsOnly_nil : WsOnly [] := by
  intro c hc
  cases hc

theorem wsOnly_nlIndent (fmt : Bool) (d : Nat) : WsOnly (nlIndent fmt d) := by
  intro c hc
  cases fmt with
  | false => simp [nlIndent] at hc
  | true =>
    simp [nlIndent, tabs] at hc
    rcases hc with rfl | ⟨_, rfl⟩
    · decide
    · decide

theorem wsOnly_append {a b : List Char} (ha : WsOnly a) (hb : WsOnly b) :
    WsOnly (a ++ b) := by
  intro c hc
  rcases List.mem_append.mp hc with h | h
  · exact ha c h
  · exact hb c h

/-! ## Number round-trip -/

theorem NumDelim_not_dot {rest : List Char} (hrest : NumDelim rest) :
    ¬(rest.head? = some ('.') ∧ digitHead rest.tail = true) := by
  rintro ⟨h1, -⟩
  cases rest with
  | nil => simp at h1
  | cons r rs =>
    simp at h1
    exact hrest.2.1 (by rw [h1])

theorem NumDelim_not_exp {rest : List Char} (hrest : NumDelim rest) :
    ¬(rest.head? = some ('e') ∨ rest.head? = some ('E')) := by
  intro h1
  cases rest with
  | nil => simp at h1
  | cons r rs =>
    rcases h1 with h1 | h1
    · simp at h1
      exact hrest.2.2.1 (by rw [h1])
    · simp at h1
      exact hrest.2.2.2 (by rw [h1])

/-- Reading back an unsigned integer rendering. -/
theorem parseNumCore_int (m : Nat) (neg : Bool) {rest : List Char}
    (hrest : NumDelim rest) :
    parseNumCore neg (natDigits m ++ rest)
      = some (if neg then -(m : Rat) else (m : Rat), rest) := by
  have hdig := natDigits_all_digits m
  obtain ⟨c, cs, hcons⟩ := List.exists_cons_of_ne_nil (natDigits_ne_nil m)
  have hc : isDigitC c = true := by
    refine hdig c ?_
    rw [hcons]
    exact List.mem_cons_self c cs
  have hstop : digitHead rest = false := NumDelim_digitHead hrest
  have hrd := readDigits_run (natDigits m) hdig hstop 0 0
  have hdh : digitHead (natDigits m ++ rest) = true := by
    rw [hcons, List.cons_append]
    simpa [digitHead] using hc
  rw [parseNumCore]
  simp only [hdh, if_true, hrd, digitsVal_natDigits]
  rw [if_neg (NumDelim_not_dot hrest)]
  simp only []
  rw [if_neg (NumDelim_not_exp hrest)]
  cases neg <;> push_cast <;> norm_num

/-- Reading back an unsigned fractional rendering: the digits of `m`, padded
to at least `k + 1`, with the dot before the last `k` of them. -/
theorem parseNumCore_frac (m k : Nat) (hk : k ≠ 0) (neg : Bool)
    {rest : List Char} (hrest : NumDelim rest) :
    parseNumCore neg
      ((fracDigits m k).take ((fracDigits m k).length - k) ++
        '.' :: (fracDigits m k).drop ((fracDigits m k).length - k) ++ rest)
      = some (if neg then -((m : Rat) / 10 ^ k) else (m : Rat) / 10 ^ k, rest) := by
  set ds := fracDigits m k with hds
  have hdsdig : ∀ c ∈ ds, isDigitC c = true := by
    intro c hc
    rw [hds, fracDigits] at hc
    rcases List.mem_append.mp hc with h | h
    · rw [List.eq_of_mem_replicate h]
      decide
    · exact natDigits_all_digits m c h
  have hL : k + 1 ≤ ds.length := by
    rw [hds, fracDigits, List.length_append, List.length_replicate]
    have h1 : 1 ≤ (natDigits m).length :=
      List.length_pos.mpr (natDigits_ne_nil m)
    omega
  set D1 := ds.take (ds.length - k) with hD1
  set D2 := ds.drop (ds.length - k) with hD2
  have hsplit : D1 ++ D2 = ds := List.take_append_drop _ _
  have hlen1 : D1.length = ds.length - k := by
    rw [hD1, List.length_take]
    omega
  have hlen2 : D2.length = k := by
    rw [hD2, List.length_drop]
    omega
  have hd1dig : ∀ c ∈ D1, isDigitC c = true := fun c hc =>
    hdsdig c (List.mem_of_mem_take hc)
  have hd2dig : ∀ c ∈ D2, isDigitC c = true := fun c hc =>
    hdsdig c (List.mem_of_mem_drop hc)
  have hval : digitsVal D1 * 10 ^ k + digitsVal D2 = m := by
    have h1 : digitsVal (D1 ++ D2) = digitsVal D1 * 10 ^ D2.length + digitsVal D2 :=
      digitsVal_append D1 D2
    rw [hsplit] at h1
    have h2 : digitsVal ds = m := by
      rw [hds, fracDigits, digitsVal_replicate_zero, digitsVal_natDigits]
    rw [h2, hlen2] at h1
    omega
  obtain ⟨c1, cs1, hcons1⟩ : ∃ c cs, D1 = c :: cs := by
    cases hD1x : D1 with
    | nil =>
      rw [hD1x] at hlen1
      simp at hlen1
      omega
    | cons a b => exact ⟨a, b, rfl⟩
  obtain ⟨c2, cs2, hcons2⟩ : ∃ c cs, D2 = c :: cs := by
    cases hD2x : D2 with
    | nil =>
      rw [hD2x] at hlen2
      simp at hlen2
      omega
    | cons a b => exact ⟨a, b, rfl⟩
  have hc1 : isDigitC c1 = true := by
    refine hd1dig c1 ?_
    rw [hcons1]
    exact List.mem_cons_self _ _
  have hc2 : isDigitC c2 = true := by
    refine hd2dig c2 ?_
    rw [hcons2]
    exact List.mem_cons_self _ _
  have hstop : digitHead rest = false := NumDelim_digitHead hrest
  have hdot : digitHead ('.' :: (D2 ++ rest)) = false := by
    simp [digitHead]
    decide
  have hrd1 := readDigits_run D1 hd1dig hdot 0 0
  have hrd2 := readDigits_run D2 hd2dig hstop 0 0
  have hdh1 : digitHead (D1 ++ '.' :: (D2 ++ rest)) = true := by
    rw [hcons1, List.cons_append]
    simpa [digitHead] using hc1
  have hdh2 : digitHead (D2 ++ rest) = true := by
    rw [hcons2, List.cons_append]
    simpa [digitHead] using hc2
  have hassoc : D1 ++ '.' :: D2 ++ rest = D1 ++ '.' :: (D2 ++ rest) := by
    simp
  rw [hassoc, parseNumCore]
  simp only [hdh1, if_true, hrd1]
  have hfrcond : ((('.' :: (D2 ++ rest)).head? = some ('.')) ∧
      digitHead ('.' :: (D2 ++ rest)).tail = true) := by
    constructor
    · rfl
    · simpa using hdh2
  rw [if_pos hfrcond]
  simp only [List.tail_cons, hrd2]
  rw [if_neg (NumDelim_not_exp hrest)]
  have harith : ((0 * 10 ^ D1.length + digitsVal D1 : Nat) : Rat) +
      ((0 * 10 ^ D2.length + digitsVal D2 : Nat) : Rat) / (10 : Rat) ^ (0 + D2.length)
      = (m : Rat) / 10 ^ k := by
    rw [← hval]
    have hten : (10 : Rat) ^ k ≠ 0 := by positivity
    field_simp [hlen2]
  cases neg <;> simp only [if_true, if_false, Bool.false_eq_true] <;> rw [← harith] <;> norm_num

theorem numRepr_int {q : Rat} (hk : decExp q.den = 0) :
    numRepr q = (if q.num < 0 then ['-'] else []) ++
      natDigits (q.num.natAbs * 10 ^ decExp q.den / q.den) := by
  rw [numRepr]
  simp only []
  rw [if_pos hk]

theorem numRepr_frac {q : Rat} (hk : decExp q.den ≠ 0) :
    numRepr q = (if q.num < 0 then ['-'] else []) ++
      ((fracDigits (q.num.natAbs * 10 ^ decExp q.den / q.den) (decExp q.den)).take
        ((fracDigits (q.num.natAbs * 10 ^ decExp q.den / q.den) (decExp q.den)).length - decExp q.den) ++
       '.' :: (fracDigits (q.num.natAbs * 10 ^ decExp q.den / q.den) (decExp q.den)).drop
        ((fracDigits (q.num.natAbs * 10 ^ decExp q.den / q.den) (decExp q.den)).length - decExp q.den)) := by
  rw [numRepr]
  simp only []
  rw [if_neg hk]
  simp

theorem parseNum_cons_minus (cs : List Char) :
    parseNum ('-' :: cs) = parseNumCore true cs := by
  simp [parseNum]

theorem parseNum_of_head_digit {cs : List Char} (h : digitHead cs = true) :
    parseNum cs = parseNumCore false cs := by
  cases cs with
  | nil => simp [digitHead] at h
  | cons c tl =>
    have hc : isDigitC c = true := by simpa [digitHead] using h
    have hmin : c ≠ '-' := (digit_not_special hc).2.2.2.2.2.2.2.1
    rw [parseNum, if_neg (by simpa using hmin)]

/-- Reading back a rendered number restores the exact rational, for every
value with a finite decimal expansion, whenever the following text cannot
extend the number token. -/
theorem parseNum_numRepr (q : Rat) (hq : DecFinite q) {rest : List Char}
    (hrest : NumDelim rest) : parseNum (numRepr q ++ rest) = some (q, rest) := by
  have hdnz : (q.den : Nat) ≠ 0 := q.den_nz
  have hdvd : (q.den : Nat) ∣ 10 ^ decExp q.den := hq
  have hmd : (q.num.natAbs * 10 ^ decExp q.den / q.den) * q.den
      = q.num.natAbs * 10 ^ decExp q.den :=
    Nat.div_mul_cancel (Dvd.dvd.mul_left hdvd _)
  have hval : ((q.num.natAbs * 10 ^ decExp q.den / q.den : Nat) : Rat) /
      (10 : Rat) ^ decExp q.den
      = ((q.num.natAbs : Nat) : Rat) / ((q.den : Nat) : Rat) := by
    rw [div_eq_div_iff (by positivity) (by exact_mod_cast hdnz)]
    exact_mod_cast hmd
  have hfd : ∀ c ∈ fracDigits (q.num.natAbs * 10 ^ decExp q.den / q.den)
      (decExp q.den), isDigitC c = true := by
    intro c hmem
    rw [fracDigits] at hmem
    rcases List.mem_append.mp hmem with h | h
    · rw [List.eq_of_mem_replicate h]
      decide
    · exact natDigits_all_digits _ c h
  by_cases hneg : q.num < 0
  · have habs : ((q.num.natAbs : Nat) : Rat) = -((q.num : Int) : Rat) := by
      rw [Int.cast_natAbs, Int.cast_abs]
      exact abs_of_neg (by exact_mod_cast hneg)
    by_cases hk : decExp q.den = 0
    · have hden1 : q.den = 1 := Nat.dvd_one.mp (by simpa [hk] using hdvd)
      rw [numRepr_int hk, if_pos hneg, List.append_assoc, List.singleton_append,
        parseNum_cons_minus, parseNumCore_int _ true hrest]
      have hmv : q.num.natAbs * 10 ^ decExp q.den / q.den = q.num.natAbs := by
        rw [hk, hden1]
        simp
      have hfin : -((q.num.natAbs : Nat) : Rat) = q := by
        rw [habs, neg_neg]
        conv_rhs => rw [← Rat.num_div_den q]
        rw [hden1]
        simp
      rw [hmv]
      simp [hfin]
    · rw [numRepr_frac hk, if_pos hneg, List.append_assoc, List.singleton_append,
        parseNum_cons_minus, parseNumCore_frac _ _ hk true hrest]
      have hfin : -(((q.num.natAbs * 10 ^ decExp q.den / q.den : Nat) : Rat) /
          (10 : Rat) ^ decExp q.den) = q := by
        rw [hval, habs, neg_div, neg_neg, Rat.num_div_den]
      simp [hfin]
  · have habs : ((q.num.natAbs : Nat) : Rat) = ((q.num : Int) : Rat) := by
      rw [Int.cast_natAbs, Int.cast_abs]
      exact abs_of_nonneg (by exact_mod_cast not_lt.mp hneg)
    by_cases hk : decExp q.den = 0
    · have hden1 : q.den = 1 := Nat.dvd_one.mp (by simpa [hk] using hdvd)
      obtain ⟨c, cs, hcons⟩ := List.exists_cons_of_ne_nil
        (natDigits_ne_nil (q.num.natAbs * 10 ^ decExp q.den / q.den))
      have hc : isDigitC c = true := by
        refine natDigits_all_digits (q.num.natAbs * 10 ^ decExp q.den / q.den) c ?_
        rw [hcons]
        exact List.mem_cons_self _ _
      rw [numRepr_int hk, if_neg hneg, List.nil_append]
      have hdh : digitHead (natDigits (q.num.natAbs * 10 ^ decExp q.den / q.den)
          ++ rest) = true := by
        rw [hcons]
        simp [digitHead, hc]
      rw [parseNum_of_head_digit hdh, parseNumCore_int _ false hrest]
      have hmv : q.num.natAbs * 10 ^ decExp q.den / q.den = q.num.natAbs := by
        rw [hk, hden1]
        simp
      have hfin : ((q.num.natAbs : Nat) : Rat) = q := by
        rw [habs]
        conv_rhs => rw [← Rat.num_div_den q]
        rw [hden1]
        simp
      rw [hmv]
      simp [hfin]
    · have hL : decExp q.den + 1 ≤ (fracDigits
          (q.num.natAbs * 10 ^ decExp q.den / q.den) (decExp q.den)).length := by
        rw [fracDigits, List.length_append, List.length_replicate]
        have h1 : 1 ≤ (natDigits (q.num.natAbs * 10 ^ decExp q.den / q.den)).length :=
          List.length_pos.mpr (natDigits_ne_nil _)
        omega
      obtain ⟨c, cs, hcons⟩ : ∃ c cs,
          (fracDigits (q.num.natAbs * 10 ^ decExp q.den / q.den) (decExp q.den)).take
            ((fracDigits (q.num.natAbs * 10 ^ decExp q.den / q.den)
              (decExp q.den)).length - decExp q.den) = c :: cs := by
        cases hx : (fracDigits (q.num.natAbs * 10 ^ decExp q.den / q.den)
            (decExp q.den)).take
            ((fracDigits (q.num.natAbs * 10 ^ decExp q.den / q.den)
              (decExp q.den)).length - decExp q.den) with
        | nil =>
          have hlx := congrArg List.length hx
          rw [List.length_take] at hlx
          simp at hlx
          omega
        | cons a b => exact ⟨a, b, rfl⟩
      have hc : isDigitC c = true := by
        have hcmem : c ∈ (fracDigits (q.num.natAbs * 10 ^ decExp q.den / q.den)
            (decExp q.den)).take
            ((fracDigits (q.num.natAbs * 10 ^ decExp q.den / q.den)
              (decExp q.den)).length - decExp q.den) := by
          rw [hcons]
          exact List.mem_cons_self _ _
        exact hfd c (List.mem_of_mem_take hcmem)
      rw [numRepr_frac hk, if_neg hneg, List.nil_append]
      have hdh : digitHead (((fracDigits (q.num.natAbs * 10 ^ decExp q.den / q.den)
          (decExp q.den)).take
          ((fracDigits (q.num.natAbs * 10 ^ decExp q.den / q.den)
            (decExp q.den)).length - decExp q.den) ++
          '.' :: (fracDigits (q.num.natAbs * 10 ^ decExp q.den / q.den)
            (decExp q.den)).drop
            ((fracDigits (q.num.natAbs * 10 ^ decExp q.den / q.den)
              (decExp q.den)).length - decExp q.den)) ++ rest) = true := by
        rw [hcons]
        simp [digitHead, hc]
      rw [parseNum_of_head_digit hdh, parseNumCore_frac _ _ hk false hrest]
      have hfin : (((q.num.natAbs * 10 ^ decExp q.den / q.den : Nat) : Rat) /
          (10 : Rat) ^ decExp q.den) = q := by
        rw [hval, habs, Rat.num_div_den]
      simp [hfin]

/-! ## String round-trip -/

theorem parseHex_hexDigitChar : ∀ n, n < 16 → parseHex (hexDigitChar n) = some n := by
  decide

theorem parseStrBody_escape (xs : List Char) (rest : List Char) :
    parseStrBody (escapeStr xs ++ '"' :: rest) = some (xs, rest) := by
  induction xs with
  | nil =>
    rw [show escapeStr [] = [] from rfl, List.nil_append, parseStrBody.eq_def]
    simp
  | cons c tl ih =>
    have hesc : escapeStr (c :: tl) = escChar c ++ escapeStr tl := by
      simp [escapeStr]
    rw [hesc, List.append_assoc]
    by_cases hq : c = '"'
    · subst hq
      rw [show escChar '"' = ['\\', '"'] from by decide, List.cons_append,
        List.cons_append, List.nil_append, parseStrBody.eq_def]
      simp [ih]
    · by_cases hb : c = '\\'
      · subst hb
        rw [show escChar '\\' = ['\\', '\\'] from by decide, List.cons_append,
          List.cons_append, List.nil_append, parseStrBody.eq_def]
        simp [ih]
      · by_cases h8 : c = '\x08'
        · subst h8
          rw [show escChar '\x08' = ['\\', 'b'] from by decide, List.cons_append,
            List.cons_append, List.nil_append, parseStrBody.eq_def]
          simp [ih]
        · by_cases hc12 : c = '\x0c'
          · subst hc12
            rw [show escChar '\x0c' = ['\\', 'f'] from by decide, List.cons_append,
              List.cons_append, List.nil_append, parseStrBody.eq_def]
            simp [ih]
          · by_cases hn : c = '\n'
            · subst hn
              rw [show escChar '\n' = ['\\', 'n'] from by decide, List.cons_append,
                List.cons_append, List.nil_append, parseStrBody.eq_def]
              simp [ih]
            · by_cases hr : c = '\x0d'
              · subst hr
                rw [show escChar '\x0d' = ['\\', 'r'] from by decide, List.cons_append,
                  List.cons_append, List.nil_append, parseStrBody.eq_def]
                simp [ih]
              · by_cases ht : c = '\t'
                · subst ht
                  rw [show escChar '\t' = ['\\', 't'] from by decide, List.cons_append,
                    List.cons_append, List.nil_append, parseStrBody.eq_def]
                  simp [ih]
                · by_cases hlt : c.toNat < 32
                  · rw [escChar, if_neg hq, if_neg hb, if_neg h8, if_neg hc12,
                      if_neg hn, if_neg hr, if_neg ht, if_pos hlt,
                      List.cons_append, List.cons_append, List.cons_append,
                      List.cons_append, List.cons_append, List.cons_append,
                      List.nil_append, parseStrBody.eq_def]
                    have hu2 : parseHex (hexDigitChar (c.toNat / 16))
                        = some (c.toNat / 16) :=
                      parseHex_hexDigitChar _ (by omega)
                    have hu3 : parseHex (hexDigitChar (c.toNat % 16))
                        = some (c.toNat % 16) :=
                      parseHex_hexDigitChar _ (Nat.mod_lt _ (by omega))
                    simp [show parseHex '0' = some 0 from by decide, hu2, hu3, ih]
                    rw [show c.toNat / 16 * 16 + c.toNat % 16 = c.toNat from by omega,
                      Char.ofNat_toNat]
                  · rw [escChar, if_neg hq, if_neg hb, if_neg h8, if_neg hc12,
                      if_neg hn, if_neg hr, if_neg ht, if_neg hlt,
                      List.cons_append, List.nil_append, parseStrBody.eq_def]
                    simp [hq, hb, ih]

/-! ## Heads of rendered values -/

theorem natDigits_cons (m : Nat) :
    ∃ c cs, natDigits m = c :: cs ∧ isDigitC c = true := by
  obtain ⟨c, cs, hcons⟩ := List.exists_cons_of_ne_nil (natDigits_ne_nil m)
  refine ⟨c, cs, hcons, natDigits_all_digits m c ?_⟩
  rw [hcons]
  exact List.mem_cons_self _ _

theorem fracTake_cons (m k : Nat) :
    ∃ c cs, (fracDigits m k).take ((fracDigits m k).length - k) = c :: cs ∧
      isDigitC c = true := by
  have hL : k + 1 ≤ (fracDigits m k).length := by
    rw [fracDigits, List.length_append, List.length_replicate]
    have h1 : 1 ≤ (natDigits m).length := List.length_pos.mpr (natDigits_ne_nil m)
    omega
  obtain ⟨c, cs, hcons⟩ : ∃ c cs,
      (fracDigits m k).take ((fracDigits m k).length - k) = c :: cs := by
    cases hx : (fracDigits m k).take ((fracDigits m k).length - k) with
    | nil =>
      have hlx := congrArg List.length hx
      rw [List.length_take] at hlx
      simp at hlx
      omega
    | cons a b => exact ⟨a, b, rfl⟩
  refine ⟨c, cs, hcons, ?_⟩
  have hcmem : c ∈ fracDigits m k := by
    refine List.mem_of_mem_take (n := (fracDigits m k).length - k) ?_
    rw [hcons]
    exact List.mem_cons_self _ _
  rw [fracDigits] at hcmem
  rcases List.mem_append.mp hcmem with h | h
  · rw [List.eq_of_mem_replicate h]
    decide
  · exact natDigits_all_digits m c h

theorem numRepr_head (q : Rat) :
    ∃ c cs, numRepr q = c :: cs ∧ (c = '-' ∨ isDigitC c = true) := by
  by_cases hk : decExp q.den = 0
  · rw [numRepr_int hk]
    by_cases hneg : q.num < 0
    · rw [if_pos hneg]
      exact ⟨'-', _, rfl, Or.inl rfl⟩
    · rw [if_neg hneg, List.nil_append]
      obtain ⟨c, cs, hcons, hc⟩ := natDigits_cons (q.num.natAbs * 10 ^ decExp q.den / q.den)
      exact ⟨c, cs, hcons, Or.inr hc⟩
  · rw [numRepr_frac hk]
    by_cases hneg : q.num < 0
    · rw [if_pos hneg]
      exact ⟨'-', _, rfl, Or.inl rfl⟩
    · rw [if_neg hneg, List.nil_append]
      obtain ⟨c, cs, hcons, hc⟩ := fracTake_cons
        (q.num.natAbs * 10 ^ decExp q.den / q.den) (decExp q.den)
      rw [hcons, List.cons_append]
      exact ⟨c, _, rfl, Or.inr hc⟩

/-- The possible first characters of a rendered value. -/
theorem render_head (fmt : Bool) (d : Nat) (v : JVal) :
    ∃ c cs, render fmt d v = c :: cs ∧
      (c = '"' ∨ c = '[' ∨ c = '\x7b' ∨ c = 'n' ∨ c = 't' ∨ c = 'f' ∨
        c = '-' ∨ isDigitC c = true) := by
  cases v with
  | jnull => exact ⟨'n', ['u', 'l', 'l'], by simp [render], by simp⟩
  | jbool b =>
    cases b with
    | true => exact ⟨'t', ['r', 'u', 'e'], by simp [render], by simp⟩
    | false => exact ⟨'f', ['a', 'l', 's', 'e'], by simp [render], by simp⟩
  | jnum q =>
    obtain ⟨c, cs, hcons, hc⟩ := numRepr_head q
    refine ⟨c, cs, by simp [render, hcons], ?_⟩
    rcases hc with h | h
    · exact Or.inr (Or.inr (Or.inr (Or.inr (Or.inr (Or.inr (Or.inl h))))))
    · exact Or.inr (Or.inr (Or.inr (Or.inr (Or.inr (Or.inr (Or.inr h))))))
  | jstr s => exact ⟨'"', escapeStr s.data ++ ['"'], by simp [render], by simp⟩
  | jarr xs =>
    cases xs with
    | nil => exact ⟨'[', [']'], by simp [render], by simp⟩
    | cons x tl =>
      exact ⟨'[', nlIndent fmt (d + 1) ++ (render fmt (d + 1) x ++
        (renderItems fmt (d + 1) tl ++ (nlIndent fmt d ++ [']']))),
        by simp [render], by simp⟩
  | jobj kvs =>
    cases kvs with
    | nil => exact ⟨'\x7b', ['\x7d'], by simp [render], by simp⟩
    | cons kv tl =>
      exact ⟨'\x7b', nlIndent fmt (d + 1) ++ (renderField fmt (d + 1) kv ++
        (renderFields fmt (d + 1) tl ++ (nlIndent fmt d ++ ['\x7d']))),
        by simp [render], by simp⟩

/-- A rendered value's first character is not whitespace, not a closing
bracket, not a separator. -/
theorem render_head_facts {c : Char}
    (h : c = '"' ∨ c = '[' ∨ c = '\x7b' ∨ c = 'n' ∨ c = 't' ∨ c = 'f' ∨
      c = '-' ∨ isDigitC c = true) :
    isWs c = false ∧ c ≠ ']' ∧ c ≠ '\x7d' ∧ c ≠ ',' := by
  rcases h with rfl | rfl | rfl | rfl | rfl | rfl | rfl | h
  · exact ⟨by decide, by decide, by decide, by decide⟩
  · exact ⟨by decide, by decide, by decide, by decide⟩
  · exact ⟨by decide, by decide, by decide, by decide⟩
  · exact ⟨by decide, by decide, by decide, by decide⟩
  · exact ⟨by decide, by decide, by decide, by decide⟩
  · exact ⟨by decide, by decide, by decide, by decide⟩
  · exact ⟨by decide, by decide, by decide, by decide⟩
  · obtain ⟨hws, -, -, -, -, -, -, -, -, -, -, -, hrb, hbc, -⟩ := digit_not_special h
    exact ⟨hws, hrb, hbc, (digit_not_special h).2.2.2.2.2.2.2.2.2.2.2.1⟩

/-! ## Delimiters after rendered fragments -/

theorem Delim_to_NumDelim {rest : List Char} (h : Delim rest) : NumDelim rest := by
  cases rest with
  | nil => trivial
  | cons c tl =>
    rcases h with rfl | rfl | rfl | rfl
    · exact ⟨by decide, by decide, by decide, by decide⟩
    · exact ⟨by decide, by decide, by decide, by decide⟩
    · exact ⟨by decide, by decide, by decide, by decide⟩
    · exact ⟨by decide, by decide, by decide, by decide⟩

theorem delim_items_rest (fmt : Bool) (d d' : Nat) (tl : List JVal)
    (rest : List Char) :
    Delim (renderItems fmt d tl ++ (nlIndent fmt d' ++ (']' :: rest))) := by
  cases tl with
  | nil =>
    rw [show renderItems fmt d [] = [] from by simp [renderItems], List.nil_append]
    cases fmt with
    | false =>
      rw [show nlIndent false d' = [] from rfl, List.nil_append]
      exact Or.inr (Or.inl rfl)
    | true =>
      rw [show nlIndent true d' = '\n' :: tabs d' from rfl, List.cons_append]
      exact Or.inr (Or.inr (Or.inr rfl))
  | cons y tl2 =>
    rw [show renderItems fmt d (y :: tl2)
        = ',' :: (nlIndent fmt d ++ render fmt d y ++ renderItems fmt d tl2)
      from by simp [renderItems], List.cons_append]
    exact Or.inl rfl

theorem delim_fields_rest (fmt : Bool) (d d' : Nat)
    (tl : List (String × JVal)) (rest : List Char) :
    Delim (renderFields fmt d tl ++ (nlIndent fmt d' ++ ('\x7d' :: rest))) := by
  cases tl with
  | nil =>
    rw [show renderFields fmt d [] = [] from by simp [renderFields], List.nil_append]
    cases fmt with
    | false =>
      rw [show nlIndent false d' = [] from rfl, List.nil_append]
      exact Or.inr (Or.inr (Or.inl rfl))
    | true =>
      rw [show nlIndent true d' = '\n' :: tabs d' from rfl, List.cons_append]
      exact Or.inr (Or.inr (Or.inr rfl))
  | cons kv tl2 =>
    rw [show renderFields fmt d (kv :: tl2)
        = ',' :: (nlIndent fmt d ++ renderField fmt d kv ++ renderFields fmt d tl2)
      from by simp [renderFields], List.cons_append]
    exact Or.inl rfl

/-! ## Size positivity -/

theorem sizeV_pos (v : JVal) : 1 ≤ sizeV v := by
  cases v <;> simp [sizeV]

theorem sizeL_pos (xs : List JVal) : 1 ≤ sizeL xs := by
  cases xs <;> simp [sizeL] <;> omega

theorem sizeF_pos (kvs : List (String × JVal)) : 1 ≤ sizeF kvs := by
  cases kvs <;> simp [sizeF] <;> omega

set_option maxHeartbeats 1000000

/-- Parse-of-render: the master induction.  For any sufficient fuel, a
rendered value preceded by whitespace and followed by a delimiter reads
back as itself, and likewise for rendered element and member tails. -/
theorem parseRT (fmt : Bool) : ∀ fuel : Nat,
    (∀ (v : JVal) (d : Nat) (pre rest : List Char), WsOnly pre → NumsFinite v →
      Delim rest → sizeV v ≤ fuel →
      parseVal fuel (pre ++ (render fmt d v ++ rest)) = some (v, rest)) ∧
    (∀ (x : JVal) (tl : List JVal) (d d' : Nat) (pre rest : List Char),
      WsOnly pre → NumsFinite x → NumsFiniteL tl → sizeL (x :: tl) ≤ fuel →
      parseItems fuel (pre ++ (render fmt d x ++ (renderItems fmt d tl ++
        (nlIndent fmt d' ++ (']' :: rest))))) = some (x :: tl, rest)) ∧
    (∀ (kv : String × JVal) (tl : List (String × JVal)) (d d' : Nat)
      (pre rest : List Char),
      WsOnly pre → NumsFinite kv.2 → NumsFiniteF tl → sizeF (kv :: tl) ≤ fuel →
      parseFields fuel (pre ++ (renderField fmt d kv ++ (renderFields fmt d tl ++
        (nlIndent fmt d' ++ ('\x7d' :: rest))))) = some (kv :: tl, rest)) := by
  intro fuel
  induction fuel with
  | zero =>
    refine ⟨?_, ?_, ?_⟩
    · intro v d pre rest _ _ _ hsize
      have := sizeV_pos v
      omega
    · intro x tl d d' pre rest _ _ _ hsize
      simp [sizeL] at hsize
    · intro kv tl d d' pre rest _ _ _ hsize
      simp [sizeF] at hsize
  | succ fuel ih =>
    obtain ⟨ihV, ihI, ihF⟩ := ih
    refine ⟨?_, ?_, ?_⟩
    · intro v d pre rest hpre hnum hdelim hsize
      cases v with
      | jnull =>
        rw [show render fmt d .jnull = ['n', 'u', 'l', 'l'] from by simp [render]]
        have hskip : skipWs (pre ++ (['n', 'u', 'l', 'l'] ++ rest))
            = 'n' :: ('u' :: ('l' :: ('l' :: rest))) := by
          rw [skipWs_append hpre]
          simp only [List.cons_append, List.nil_append]
          exact skipWs_cons_nonWs (by decide) _
        simp only [parseVal]
        rw [hskip]
        simp
      | jbool b =>
        cases b with
        | true =>
          rw [show render fmt d (.jbool true) = ['t', 'r', 'u', 'e'] from by
            simp [render]]
          have hskip : skipWs (pre ++ (['t', 'r', 'u', 'e'] ++ rest))
              = 't' :: ('r' :: ('u' :: ('e' :: rest))) := by
            rw [skipWs_append hpre]
            simp only [List.cons_append, List.nil_append]
            exact skipWs_cons_nonWs (by decide) _
          simp only [parseVal]
          rw [hskip]
          simp
        | false =>
          rw [show render fmt d (.jbool false) = ['f', 'a', 'l', 's', 'e'] from by
            simp [render]]
          have hskip : skipWs (pre ++ (['f', 'a', 'l', 's', 'e'] ++ rest))
              = 'f' :: ('a' :: ('l' :: ('s' :: ('e' :: rest)))) := by
            rw [skipWs_append hpre]
            simp only [List.cons_append, List.nil_append]
            exact skipWs_cons_nonWs (by decide) _
          simp only [parseVal]
          rw [hskip]
          simp
      | jnum q =>
        have hq : DecFinite q := by simpa [NumsFinite] using hnum
        obtain ⟨c, cs, hcons, hcd⟩ := numRepr_head q
        have hws : isWs c = false := by
          rcases hcd with rfl | h
          · decide
          · exact (digit_not_special h).1
        have hcn : c ≠ 'n' := by
          rcases hcd with rfl | h
          · decide
          · exact (digit_not_special h).2.1
        have hct : c ≠ 't' := by
          rcases hcd with rfl | h
          · decide
          · exact (digit_not_special h).2.2.1
        have hcf : c ≠ 'f' := by
          rcases hcd with rfl | h
          · decide
          · exact (digit_not_special h).2.2.2.1
        have hcq : c ≠ '"' := by
          rcases hcd with rfl | h
          · decide
          · exact (digit_not_special h).2.2.2.2.1
        have hcbr : c ≠ '[' := by
          rcases hcd with rfl | h
          · decide
          · exact (digit_not_special h).2.2.2.2.2.1
        have hcbc : c ≠ '\x7b' := by
          rcases hcd with rfl | h
          · decide
          · exact (digit_not_special h).2.2.2.2.2.2.1
        rw [show render fmt d (.jnum q) = numRepr q from by simp [render]]
        have hskip : skipWs (pre ++ (numRepr q ++ rest)) = c :: (cs ++ rest) := by
          rw [skipWs_append hpre, hcons, List.cons_append]
          exact skipWs_cons_nonWs hws _
        simp only [parseVal]
        rw [hskip]
        simp only []
        rw [if_neg hcn, if_neg hct, if_neg hcf, if_neg hcq, if_neg hcbr,
          if_neg hcbc, if_pos (show c = '-' ∨ isDigitC c = true from hcd),
          show c :: (cs ++ rest) = numRepr q ++ rest from by
            rw [hcons, List.cons_append],
          parseNum_numRepr q hq (Delim_to_NumDelim hdelim)]
      | jstr s =>
        obtain ⟨sl⟩ := s
        rw [show render fmt d (.jstr ⟨sl⟩) = '"' :: (escapeStr sl ++ ['"'])
          from by simp [render]]
        have hskip : skipWs (pre ++ (('"' :: (escapeStr sl ++ ['"'])) ++ rest))
            = '"' :: ((escapeStr sl ++ ['"']) ++ rest) := by
          rw [skipWs_append hpre, List.cons_append]
          exact skipWs_cons_nonWs (by decide) _
        simp only [parseVal]
        rw [hskip]
        simp only []
        rw [if_neg (by decide : ¬('"' : Char) = 'n'),
          if_neg (by decide : ¬('"' : Char) = 't'),
          if_neg (by decide : ¬('"' : Char) = 'f'), if_true,
          show (escapeStr sl ++ ['"']) ++ rest = escapeStr sl ++ ('"' :: rest)
            from by simp, parseStrBody_escape]
      | jarr xs =>
        cases xs with
        | nil =>
          rw [show render fmt d (.jarr []) = ['[', ']'] from by simp [render]]
          have hskip : skipWs (pre ++ (['[', ']'] ++ rest)) = '[' :: (']' :: rest) := by
            rw [skipWs_append hpre]
            simp only [List.cons_append, List.nil_append]
            exact skipWs_cons_nonWs (by decide) _
          simp only [parseVal]
          rw [hskip]
          simp only []
          rw [if_neg (by decide : ¬('[' : Char) = 'n'),
            if_neg (by decide : ¬('[' : Char) = 't'),
            if_neg (by decide : ¬('[' : Char) = 'f'),
            if_neg (by decide : ¬('[' : Char) = '"'), if_true,
            show skipWs (']' :: rest) = ']' :: rest
              from skipWs_cons_nonWs (by decide) _]
          simp
        | cons x tl =>
          have hnx_tl : NumsFinite x ∧ NumsFiniteL tl := by
            simpa [NumsFinite, NumsFiniteL] using hnum
          obtain ⟨cx, bx, hbx, hcd⟩ := render_head fmt (d + 1) x
          obtain ⟨hxw, hxrb, hxbc, hxcm⟩ := render_head_facts hcd
          rw [show render fmt d (.jarr (x :: tl)) = '[' :: (nlIndent fmt (d + 1) ++
            (render fmt (d + 1) x ++ (renderItems fmt (d + 1) tl ++
              (nlIndent fmt d ++ [']'])))) from by simp [render]]
          have hskip : skipWs (pre ++ (('[' :: (nlIndent fmt (d + 1) ++
              (render fmt (d + 1) x ++ (renderItems fmt (d + 1) tl ++
                (nlIndent fmt d ++ [']']))))) ++ rest))
              = '[' :: ((nlIndent fmt (d + 1) ++ (render fmt (d + 1) x ++
                (renderItems fmt (d + 1) tl ++ (nlIndent fmt d ++ [']'])))) ++ rest) := by
            rw [skipWs_append hpre, List.cons_append]
            exact skipWs_cons_nonWs (by decide) _
          simp only [parseVal]
          rw [hskip]
          simp only []
          rw [if_neg (by decide : ¬('[' : Char) = 'n'),
            if_neg (by decide : ¬('[' : Char) = 't'),
            if_neg (by decide : ¬('[' : Char) = 'f'),
            if_neg (by decide : ¬('[' : Char) = '"'), if_true,
            show (nlIndent fmt (d + 1) ++ (render fmt (d + 1) x ++
              (renderItems fmt (d + 1) tl ++ (nlIndent fmt d ++ [']'])))) ++ rest
              = nlIndent fmt (d + 1) ++ (render fmt (d + 1) x ++
                (renderItems fmt (d + 1) tl ++ (nlIndent fmt d ++ (']' :: rest))))
              from by simp]
          have hskip2 : skipWs (nlIndent fmt (d + 1) ++ (render fmt (d + 1) x ++
              (renderItems fmt (d + 1) tl ++ (nlIndent fmt d ++ (']' :: rest)))))
              = cx :: (bx ++ (renderItems fmt (d + 1) tl ++
                (nlIndent fmt d ++ (']' :: rest)))) := by
            rw [skipWs_append (wsOnly_nlIndent fmt (d + 1)), hbx, List.cons_append]
            exact skipWs_cons_nonWs hxw _
          rw [hskip2, if_neg (by simp [hxrb])]
          rw [ihI x tl (d + 1) d (nlIndent fmt (d + 1)) rest
            (wsOnly_nlIndent fmt (d + 1)) hnx_tl.1 hnx_tl.2
            (by simp only [sizeV] at hsize; omega)]
      | jobj kvs =>
        cases kvs with
        | nil =>
          rw [show render fmt d (.jobj []) = ['\x7b', '\x7d'] from by simp [render]]
          have hskip : skipWs (pre ++ (['\x7b', '\x7d'] ++ rest))
              = '\x7b' :: ('\x7d' :: rest) := by
            rw [skipWs_append hpre]
            simp only [List.cons_append, List.nil_append]
            exact skipWs_cons_nonWs (by decide) _
          simp only [parseVal]
          rw [hskip]
          simp only []
          rw [if_neg (by decide : ¬('\x7b' : Char) = 'n'),
            if_neg (by decide : ¬('\x7b' : Char) = 't'),
            if_neg (by decide : ¬('\x7b' : Char) = 'f'),
            if_neg (by decide : ¬('\x7b' : Char) = '"'),
            if_neg (by decide : ¬('\x7b' : Char) = '['), if_true,
            show skipWs ('\x7d' :: rest) = '\x7d' :: rest
              from skipWs_cons_nonWs (by decide) _]
          simp
        | cons kv tl =>
          have hnkv_tl : NumsFinite kv.2 ∧ NumsFiniteF tl := by
            simpa [NumsFinite, NumsFiniteF] using hnum
          rw [show render fmt d (.jobj (kv :: tl)) = '\x7b' :: (nlIndent fmt (d + 1) ++
            (renderField fmt (d + 1) kv ++ (renderFields fmt (d + 1) tl ++
              (nlIndent fmt d ++ ['\x7d'])))) from by simp [render]]
          have hskip : skipWs (pre ++ (('\x7b' :: (nlIndent fmt (d + 1) ++
              (renderField fmt (d + 1) kv ++ (renderFields fmt (d + 1) tl ++
                (nlIndent fmt d ++ ['\x7d']))))) ++ rest))
              = '\x7b' :: ((nlIndent fmt (d + 1) ++ (renderField fmt (d + 1) kv ++
                (renderFields fmt (d + 1) tl ++ (nlIndent fmt d ++ ['\x7d'])))) ++ rest) := by
            rw [skipWs_append hpre, List.cons_append]
            exact skipWs_cons_nonWs (by decide) _
          simp only [parseVal]
          rw [hskip]
          simp only []
          rw [if_neg (by decide : ¬('\x7b' : Char) = 'n'),
            if_neg (by decide : ¬('\x7b' : Char) = 't'),
            if_neg (by decide : ¬('\x7b' : Char) = 'f'),
            if_neg (by decide : ¬('\x7b' : Char) = '"'),
            if_neg (by decide : ¬('\x7b' : Char) = '['), if_true,
            show (nlIndent fmt (d + 1) ++ (renderField fmt (d + 1) kv ++
              (renderFields fmt (d + 1) tl ++ (nlIndent fmt d ++ ['\x7d'])))) ++ rest
              = nlIndent fmt (d + 1) ++ (renderField fmt (d + 1) kv ++
                (renderFields fmt (d + 1) tl ++ (nlIndent fmt d ++ ('\x7d' :: rest))))
              from by simp]
          have hskip2 : skipWs (nlIndent fmt (d + 1) ++ (renderField fmt (d + 1) kv ++
              (renderFields fmt (d + 1) tl ++ (nlIndent fmt d ++ ('\x7d' :: rest)))))
              = '"' :: ((escapeStr kv.1.data ++ '"' :: ':' ::
                ((if fmt then [' '] else []) ++ render fmt (d + 1) kv.2)) ++
                (renderFields fmt (d + 1) tl ++ (nlIndent fmt d ++ ('\x7d' :: rest)))) := by
            rw [skipWs_append (wsOnly_nlIndent fmt (d + 1)),
              show renderField fmt (d + 1) kv = '"' :: (escapeStr kv.1.data ++ '"' :: ':' ::
                ((if fmt then [' '] else []) ++ render fmt (d + 1) kv.2))
                from by simp [renderField], List.cons_append]
            exact skipWs_cons_nonWs (by decide) _
          rw [hskip2, if_neg (by simp)]
          rw [ihF kv tl (d + 1) d (nlIndent fmt (d + 1)) rest
            (wsOnly_nlIndent fmt (d + 1)) hnkv_tl.1 hnkv_tl.2
            (by simp only [sizeV] at hsize; omega)]
    · intro x tl d d' pre rest hpre hnx hntl hsize
      have hsx : sizeV x ≤ fuel := by
        simp only [sizeL] at hsize
        omega
      have hdel1 : Delim (renderItems fmt d tl ++ (nlIndent fmt d' ++ (']' :: rest))) :=
        delim_items_rest fmt d d' tl rest
      have hv := ihV x d pre (renderItems fmt d tl ++ (nlIndent fmt d' ++ (']' :: rest)))
        hpre hnx hdel1 hsx
      simp only [parseItems]
      rw [hv]
      simp only []
      cases tl with
      | nil =>
        rw [show renderItems fmt d ([] : List JVal) ++ (nlIndent fmt d' ++ (']' :: rest))
            = nlIndent fmt d' ++ (']' :: rest) from by simp [renderItems],
          show skipWs (nlIndent fmt d' ++ (']' :: rest)) = ']' :: rest from by
            rw [skipWs_append (wsOnly_nlIndent fmt d')]
            exact skipWs_cons_nonWs (by decide) _]
        simp
      | cons y tl2 =>
        have hny_tl2 : NumsFinite y ∧ NumsFiniteL tl2 := by
          simpa [NumsFiniteL] using hntl
        rw [show renderItems fmt d (y :: tl2) ++ (nlIndent fmt d' ++ (']' :: rest))
            = ',' :: ((nlIndent fmt d ++ (render fmt d y ++ renderItems fmt d tl2)) ++
              (nlIndent fmt d' ++ (']' :: rest))) from by simp [renderItems],
          show skipWs (',' :: ((nlIndent fmt d ++ (render fmt d y ++ renderItems fmt d tl2)) ++
              (nlIndent fmt d' ++ (']' :: rest))))
            = ',' :: ((nlIndent fmt d ++ (render fmt d y ++ renderItems fmt d tl2)) ++
              (nlIndent fmt d' ++ (']' :: rest)))
            from skipWs_cons_nonWs (by decide) _]
        simp only [List.head?_cons, List.tail_cons, Option.some.injEq]
        rw [if_true,
          show (nlIndent fmt d ++ (render fmt d y ++ renderItems fmt d tl2)) ++
              (nlIndent fmt d' ++ (']' :: rest))
            = nlIndent fmt d ++ (render fmt d y ++ (renderItems fmt d tl2 ++
              (nlIndent fmt d' ++ (']' :: rest)))) from by simp,
          ihI y tl2 d d' (nlIndent fmt d) rest (wsOnly_nlIndent fmt d)
            hny_tl2.1 hny_tl2.2 (by simp only [sizeL] at hsize ⊢; omega)]
    · intro kv tl d d' pre rest hpre hnkv hntl hsize
      obtain ⟨k, v2⟩ := kv
      obtain ⟨kl⟩ := k
      have hsx : sizeV v2 ≤ fuel := by
        simp only [sizeF] at hsize
        omega
      have hdel2 : Delim (renderFields fmt d tl ++ (nlIndent fmt d' ++ ('\x7d' :: rest))) :=
        delim_fields_rest fmt d d' tl rest
      have hskip : skipWs (pre ++ (renderField fmt d (⟨kl⟩, v2) ++
          (renderFields fmt d tl ++ (nlIndent fmt d' ++ ('\x7d' :: rest)))))
          = '"' :: ((escapeStr kl ++ '"' :: ':' ::
            ((if fmt then [' '] else []) ++ render fmt d v2)) ++
            (renderFields fmt d tl ++ (nlIndent fmt d' ++ ('\x7d' :: rest)))) := by
        rw [skipWs_append hpre,
          show renderField fmt d (⟨kl⟩, v2) = '"' :: (escapeStr kl ++ '"' :: ':' ::
            ((if fmt then [' '] else []) ++ render fmt d v2))
            from by simp [renderField], List.cons_append]
        exact skipWs_cons_nonWs (by decide) _
      simp only [parseFields]
      rw [hskip]
      simp only [List.head?_cons, List.tail_cons, Option.some.injEq]
      rw [if_true,
        show (escapeStr kl ++ '"' :: ':' ::
            ((if fmt then [' '] else []) ++ render fmt d v2)) ++
            (renderFields fmt d tl ++ (nlIndent fmt d' ++ ('\x7d' :: rest)))
          = escapeStr kl ++ ('"' :: (':' ::
            (((if fmt then [' '] else []) ++ render fmt d v2) ++
            (renderFields fmt d tl ++ (nlIndent fmt d' ++ ('\x7d' :: rest))))))
          from by simp,
        parseStrBody_escape]
      simp only []
      rw [show skipWs (':' :: (((if fmt then [' '] else []) ++ render fmt d v2) ++
            (renderFields fmt d tl ++ (nlIndent fmt d' ++ ('\x7d' :: rest)))))
          = ':' :: (((if fmt then [' '] else []) ++ render fmt d v2) ++
            (renderFields fmt d tl ++ (nlIndent fmt d' ++ ('\x7d' :: rest))))
          from skipWs_cons_nonWs (by decide) _]
      simp only [List.head?_cons, List.tail_cons, Option.some.injEq]
      rw [if_true,
        show (((if fmt then [' '] else []) ++ render fmt d v2) ++
            (renderFields fmt d tl ++ (nlIndent fmt d' ++ ('\x7d' :: rest))))
          = (if fmt then [' '] else []) ++ (render fmt d v2 ++
            (renderFields fmt d tl ++ (nlIndent fmt d' ++ ('\x7d' :: rest))))
          from by simp,
        ihV v2 d (if fmt then [' '] else [])
          (renderFields fmt d tl ++ (nlIndent fmt d' ++ ('\x7d' :: rest)))
          (by cases fmt <;> intro c hc <;> simp at hc <;> simp [hc, isWs])
          hnkv hdel2 hsx]
      simp only []
      cases tl with
      | nil =>
        rw [show renderFields fmt d ([] : List (String × JVal)) ++
            (nlIndent fmt d' ++ ('\x7d' :: rest))
            = nlIndent fmt d' ++ ('\x7d' :: rest) from by simp [renderFields],
          show skipWs (nlIndent fmt d' ++ ('\x7d' :: rest)) = '\x7d' :: rest from by
            rw [skipWs_append (wsOnly_nlIndent fmt d')]
            exact skipWs_cons_nonWs (by decide) _]
        simp
      | cons kv2 tl2 =>
        have hnkv2_tl2 : NumsFinite kv2.2 ∧ NumsFiniteF tl2 := by
          simpa [NumsFiniteF] using hntl
        rw [show renderFields fmt d (kv2 :: tl2) ++ (nlIndent fmt d' ++ ('\x7d' :: rest))
            = ',' :: ((nlIndent fmt d ++ (renderField fmt d kv2 ++ renderFields fmt d tl2)) ++
              (nlIndent fmt d' ++ ('\x7d' :: rest))) from by simp [renderFields],
          show skipWs (',' :: ((nlIndent fmt d ++ (renderField fmt d kv2 ++
              renderFields fmt d tl2)) ++ (nlIndent fmt d' ++ ('\x7d' :: rest))))
            = ',' :: ((nlIndent fmt d ++ (renderField fmt d kv2 ++ renderFields fmt d tl2)) ++
              (nlIndent fmt d' ++ ('\x7d' :: rest)))
            from skipWs_cons_nonWs (by decide) _]
        simp only [List.head?_cons, List.tail_cons, Option.some.injEq]
        rw [if_true,
          show (nlIndent fmt d ++ (renderField fmt d kv2 ++ renderFields fmt d tl2)) ++
              (nlIndent fmt d' ++ ('\x7d' :: rest))
            = nlIndent fmt d ++ (renderField fmt d kv2 ++ (renderFields fmt d tl2 ++
              (nlIndent fmt d' ++ ('\x7d' :: rest)))) from by simp,
          ihF kv2 tl2 d d' (nlIndent fmt d) rest (wsOnly_nlIndent fmt d)
            hnkv2_tl2.1 hnkv2_tl2.2 (by simp only [sizeF] at hsize ⊢; omega)]

/-- The fuel measure never exceeds twice the rendered length. -/
theorem render_length_bound (fmt : Bool) : ∀ n : Nat,
    (∀ (v : JVal) (d : Nat), sizeV v ≤ n →
      sizeV v ≤ 2 * (render fmt d v).length) ∧
    (∀ (xs : List JVal) (d : Nat), sizeL xs ≤ n →
      sizeL xs ≤ 2 * (renderItems fmt d xs).length + 2) ∧
    (∀ (kvs : List (String × JVal)) (d : Nat), sizeF kvs ≤ n →
      sizeF kvs ≤ 2 * (renderFields fmt d kvs).length + 2) := by
  intro n
  induction n with
  | zero =>
    refine ⟨?_, ?_, ?_⟩
    · intro v d hs
      have := sizeV_pos v
      omega
    · intro xs d hs
      have := sizeL_pos xs
      omega
    · intro kvs d hs
      have := sizeF_pos kvs
      omega
  | succ n ih =>
    obtain ⟨ihA, ihB, ihC⟩ := ih
    refine ⟨?_, ?_, ?_⟩
    · intro v d hs
      cases v with
      | jnull => simp [render, sizeV]
      | jbool b => cases b <;> simp [render, sizeV]
      | jnum q =>
        obtain ⟨c, cs, hcons, -⟩ := numRepr_head q
        simp [render, sizeV, hcons]
        omega
      | jstr s =>
        simp [render, sizeV]
        omega
      | jarr xs =>
        cases xs with
        | nil => simp [render, sizeV, sizeL]
        | cons x tl =>
          have hp1 := sizeV_pos x
          have hp2 := sizeL_pos tl
          have hx := ihA x (d + 1) (by simp only [sizeV, sizeL] at hs; omega)
          have htl := ihB tl (d + 1) (by simp only [sizeV, sizeL] at hs; omega)
          simp only [render, sizeV, sizeL, List.length_cons, List.length_append] at hx htl ⊢
          omega
      | jobj kvs =>
        cases kvs with
        | nil => simp [render, sizeV, sizeF]
        | cons kv tl =>
          have hp1 := sizeV_pos kv.2
          have hp2 := sizeF_pos tl
          have hx := ihA kv.2 (d + 1) (by simp only [sizeV, sizeF] at hs; omega)
          have htl := ihC tl (d + 1) (by simp only [sizeV, sizeF] at hs; omega)
          simp only [render, renderField, sizeV, sizeF, List.length_cons,
            List.length_append] at hx htl ⊢
          omega
    · intro xs d hs
      cases xs with
      | nil => simp [renderItems, sizeL]
      | cons x tl =>
        have hp1 := sizeV_pos x
        have hp2 := sizeL_pos tl
        have hx := ihA x d (by simp only [sizeL] at hs; omega)
        have htl := ihB tl d (by simp only [sizeL] at hs; omega)
        simp only [renderItems, sizeL, List.length_cons, List.length_append] at hx htl ⊢
        omega
    · intro kvs d hs
      cases kvs with
      | nil => simp [renderFields, sizeF]
      | cons kv tl =>
        have hp1 := sizeV_pos kv.2
        have hp2 := sizeF_pos tl
        have hx := ihA kv.2 d (by simp only [sizeF] at hs; omega)
        have htl := ihC tl d (by simp only [sizeF] at hs; omega)
        simp only [renderFields, renderField, sizeF, List.length_cons,
          List.length_append] at hx htl ⊢
        omega

/-- Whole-text round-trip: printing a document in either mode and reading the
text back restores the document exactly. -/
theorem textParse_textPrint (fmt : Bool) (v : JVal) (h : NumsFinite v) :
    textParse (textPrint fmt v) = some v := by
  have hbound := ((render_length_bound fmt (sizeV v)).1 v 0 le_rfl)
  have hrt := (parseRT fmt (2 * (render fmt 0 v).length + 2)).1 v 0 [] []
    wsOnly_nil h (by trivial) (by omega)
  rw [List.nil_append, List.append_nil] at hrt
  rw [textParse, show (textPrint fmt v).data = render fmt 0 v from rfl, hrt]
  simp [skipWs]

/-! ## Heap lemmas for building and reading back trees -/

theorem lookup_none_of_all_ne {α : Type} {p : Nat} :
    ∀ l : List (Nat × α), (∀ e ∈ l, e.1 ≠ p) → List.lookup p l = none := by
  intro l
  induction l with
  | nil => intro _; rfl
  | cons e tl ih =>
    intro h
    obtain ⟨k, v⟩ := e
    have h1 : k ≠ p := h (k, v) (List.mem_cons_self _ _)
    have hb : (p == k) = false := beq_eq_false_iff_ne.mpr (Ne.symm h1)
    simp only [List.lookup, hb]
    exact ih (fun x hx => h x (List.mem_cons_of_mem _ hx))

theorem lookup_append_first {α : Type} (p : Nat) (l1 l2 : List (Nat × α)) :
    List.lookup p (l1 ++ l2) =
      (match List.lookup p l1 with
       | some x => some x
       | none => List.lookup p l2) := by
  induction l1 with
  | nil => simp
  | cons e tl ih =>
    by_cases hp : p = e.1
    · simp only [List.cons_append, List.lookup, hp]
      simp
    · simp only [List.cons_append, List.lookup]
      rw [show (p == e.1) = false from by simpa using hp]
      simpa using ih

theorem Store.get_none_of_wf {st : Store} (h : WFStore st) {p : Nat}
    (hp : st.next ≤ p) : st.get p = none := by
  refine lookup_none_of_all_ne st.mem (fun e he => ?_)
  have := h e he
  omega

theorem Store.get_alloc_new {st : Store} (h : WFStore st) (n : CNode) :
    (st.alloc n).2.get st.next = some n := by
  show List.lookup st.next (st.mem ++ [(st.next, n)]) = some n
  rw [lookup_append_first,
    show List.lookup st.next st.mem = none from Store.get_none_of_wf h le_rfl]
  simp [List.lookup]

theorem Store.le_alloc (st : Store) (n : CNode) : st.le (st.alloc n).2 := by
  intro p x hx
  show List.lookup p (st.mem ++ [(st.next, n)]) = some x
  rw [lookup_append_first, show List.lookup p st.mem = some x from hx]

theorem WFStore.alloc {st : Store} (h : WFStore st) (n : CNode) :
    WFStore (st.alloc n).2 := by
  intro e he
  rcases List.mem_append.mp he with h1 | h1
  · have := h e h1
    show e.1 < st.next + 1
    omega
  · rw [List.mem_singleton] at h1
    subst h1
    show st.next < st.next + 1
    omega

theorem Store.le_refl (st : Store) : st.le st := fun _ _ h => h

theorem Store.le_trans {a b c : Store} (h1 : a.le b) (h2 : b.le c) : a.le c :=
  fun p n h => h2 p n (h1 p n h)

/-- Building a tree extends the heap, preserves well-formedness, and places
the root strictly below the new counter. -/
theorem buildVal_wf : ∀ n : Nat,
    (∀ (v : JVal) (st : Store), sizeV v ≤ n → WFStore st →
      WFStore (buildVal st v).2 ∧ st.le (buildVal st v).2 ∧
      st.next ≤ (buildVal st v).2.next ∧ (buildVal st v).1 < (buildVal st v).2.next) ∧
    (∀ (xs : List JVal) (st : Store), sizeL xs ≤ n → WFStore st →
      WFStore (buildItems st xs).2 ∧ st.le (buildItems st xs).2 ∧
      st.next ≤ (buildItems st xs).2.next ∧
      ∀ e ∈ (buildItems st xs).1, e.2 < (buildItems st xs).2.next) ∧
    (∀ (kvs : List (String × JVal)) (st : Store), sizeF kvs ≤ n → WFStore st →
      WFStore (buildMembers st kvs).2 ∧ st.le (buildMembers st kvs).2 ∧
      st.next ≤ (buildMembers st kvs).2.next ∧
      ∀ e ∈ (buildMembers st kvs).1, e.2 < (buildMembers st kvs).2.next) := by
  intro n
  induction n with
  | zero =>
    refine ⟨?_, ?_, ?_⟩
    · intro v st hs
      have := sizeV_pos v
      omega
    · intro xs st hs
      have := sizeL_pos xs
      omega
    · intro kvs st hs
      have := sizeF_pos kvs
      omega
  | succ n ih =>
    obtain ⟨ihA, ihB, ihC⟩ := ih
    have halloc : ∀ (st : Store) (nd : CNode), WFStore st →
        WFStore (st.alloc nd).2 ∧ st.le (st.alloc nd).2 ∧
        st.next ≤ (st.alloc nd).2.next ∧ (st.alloc nd).1 < (st.alloc nd).2.next := by
      intro st nd hw
      exact ⟨hw.alloc nd, st.le_alloc nd, by simp [Store.alloc], by simp [Store.alloc]⟩
    refine ⟨?_, ?_, ?_⟩
    · intro v st hs hw
      cases v with
      | jnull =>
        simp only [buildVal]
        exact halloc st (mkPlainNode CType.cNULL) hw
      | jbool b =>
        cases b with
        | true =>
          simp only [buildVal]
          exact halloc st (mkPlainNode CType.cTrue) hw
        | false =>
          simp only [buildVal]
          exact halloc st (mkPlainNode CType.cFalse) hw
      | jnum q =>
        simp only [buildVal]
        exact halloc st (mkNumberNode q) hw
      | jstr s =>
        simp only [buildVal]
        exact halloc st (mkStringNode s) hw
      | jarr xs =>
        have hxs := ihB xs st (by simp only [sizeV] at hs; omega) hw
        obtain ⟨hw1, hle1, hn1, -⟩ := hxs
        have h2 := halloc (buildItems st xs).2
          { mkPlainNode CType.cArray with children := (buildItems st xs).1 } hw1
        simp only [buildVal]
        exact ⟨h2.1, Store.le_trans hle1 h2.2.1, le_trans hn1 h2.2.2.1, h2.2.2.2⟩
      | jobj kvs =>
        have hxs := ihC kvs st (by simp only [sizeV] at hs; omega) hw
        obtain ⟨hw1, hle1, hn1, -⟩ := hxs
        have h2 := halloc (buildMembers st kvs).2
          { mkPlainNode CType.cObject with children := (buildMembers st kvs).1 } hw1
        simp only [buildVal]
        exact ⟨h2.1, Store.le_trans hle1 h2.2.1, le_trans hn1 h2.2.2.1, h2.2.2.2⟩
    · intro xs st hs hw
      cases xs with
      | nil =>
        simp only [buildItems]
        exact ⟨hw, st.le_refl, le_rfl, by simp⟩
      | cons x tl =>
        have hx := ihA x st (by simp only [sizeL] at hs; omega) hw
        obtain ⟨hw1, hle1, hn1, hr1⟩ := hx
        have htl := ihB tl (buildVal st x).2 (by simp only [sizeL] at hs; omega) hw1
        obtain ⟨hw2, hle2, hn2, hr2⟩ := htl
        simp only [buildItems]
        refine ⟨hw2, Store.le_trans hle1 hle2, le_trans hn1 hn2, ?_⟩
        intro e he
        rcases List.mem_cons.mp he with h1 | h1
        · subst h1
          simp only []
          omega
        · exact hr2 e h1
    · intro kvs st hs hw
      cases kvs with
      | nil =>
        simp only [buildMembers]
        exact ⟨hw, st.le_refl, le_rfl, by simp⟩
      | cons kv tl =>
        have hx := ihA kv.2 st (by simp only [sizeF] at hs; omega) hw
        obtain ⟨hw1, hle1, hn1, hr1⟩ := hx
        have htl := ihC tl (buildVal st kv.2).2 (by simp only [sizeF] at hs; omega) hw1
        obtain ⟨hw2, hle2, hn2, hr2⟩ := htl
        simp only [buildMembers]
        refine ⟨hw2, Store.le_trans hle1 hle2, le_trans hn1 hn2, ?_⟩
        intro e he
        rcases List.mem_cons.mp he with h1 | h1
        · subst h1
          simp only []
          omega
        · exact hr2 e h1

/-- Reading back is stable under heap extension. -/
theorem readback_mono : ∀ (fuel : Nat) {st st' : Store}, st.le st' →
    (∀ p v, readback fuel st p = some v → readback fuel st' p = some v) ∧
    (∀ ch vs, readItems fuel st ch = some vs → readItems fuel st' ch = some vs) ∧
    (∀ ch kvs, readMembers fuel st ch = some kvs →
      readMembers fuel st' ch = some kvs) := by
  intro fuel
  induction fuel with
  | zero =>
    intro st st' hle
    refine ⟨?_, ?_, ?_⟩ <;> intro a b h <;> simp [readback, readItems, readMembers] at h
  | succ fuel ih =>
    intro st st' hle
    obtain ⟨ihV, ihI, ihM⟩ := ih hle
    refine ⟨?_, ?_, ?_⟩
    · intro p v h
      cases hget : st.get p with
      | none =>
        simp only [readback, hget] at h
        exact absurd h (by simp)
      | some n =>
        simp only [readback, hget] at h
        simp only [readback, hle p n hget]
        revert h
        cases htype : n.type <;> intro h
        case cNULL => exact h
        case cTrue => exact h
        case cFalse => exact h
        case cNumber => exact h
        case cString => exact h
        case cArray =>
          have h2 : (readItems fuel st n.children).map JVal.jarr = some v := h
          obtain ⟨vs, hvs, rfl⟩ := Option.map_eq_some'.mp h2
          show (readItems fuel st' n.children).map JVal.jarr = some (JVal.jarr vs)
          rw [ihI n.children vs hvs]
          rfl
        case cObject =>
          have h2 : (readMembers fuel st n.children).map JVal.jobj = some v := h
          obtain ⟨kvs, hkvs, rfl⟩ := Option.map_eq_some'.mp h2
          show (readMembers fuel st' n.children).map JVal.jobj = some (JVal.jobj kvs)
          rw [ihM n.children kvs hkvs]
          rfl
    · intro ch vs h
      cases ch with
      | nil => simpa [readItems] using h
      | cons e tl =>
        cases hrb : readback fuel st e.2 with
        | none =>
          simp only [readItems, hrb] at h
          exact absurd h (by simp)
        | some v0 =>
          simp only [readItems, hrb] at h
          simp only [readItems, ihV e.2 v0 hrb]
          obtain ⟨vs2, hvs2, rfl⟩ := Option.map_eq_some'.mp h
          rw [ihI tl vs2 hvs2]
          rfl
    · intro ch kvs h
      cases ch with
      | nil => simpa [readMembers] using h
      | cons e tl =>
        cases hrb : readback fuel st e.2 with
        | none =>
          simp only [readMembers, hrb] at h
          exact absurd h (by simp)
        | some v0 =>
          simp only [readMembers, hrb] at h
          simp only [readMembers, ihV e.2 v0 hrb]
          obtain ⟨kvs2, hkvs2, rfl⟩ := Option.map_eq_some'.mp h
          rw [ihM tl kvs2 hkvs2]
          rfl

/-- A freshly built tree reads back as the document it was built from. -/
theorem readback_build : ∀ n : Nat,
    (∀ (v : JVal) (st : Store), sizeV v ≤ n → WFStore st →
      ∀ fuel, sizeV v ≤ fuel →
        readback fuel (buildVal st v).2 (buildVal st v).1 = some v) ∧
    (∀ (xs : List JVal) (st : Store), sizeL xs ≤ n → WFStore st →
      ∀ fuel, sizeL xs ≤ fuel →
        readItems fuel (buildItems st xs).2 (buildItems st xs).1 = some xs) ∧
    (∀ (kvs : List (String × JVal)) (st : Store), sizeF kvs ≤ n → WFStore st →
      ∀ fuel, sizeF kvs ≤ fuel →
        readMembers fuel (buildMembers st kvs).2 (buildMembers st kvs).1
          = some kvs) := by
  intro n
  induction n with
  | zero =>
    refine ⟨?_, ?_, ?_⟩
    · intro v st hs
      have := sizeV_pos v
      omega
    · intro xs st hs
      have := sizeL_pos xs
      omega
    · intro kvs st hs
      have := sizeF_pos kvs
      omega
  | succ n ih =>
    obtain ⟨ihA, ihB, ihC⟩ := ih
    refine ⟨?_, ?_, ?_⟩
    · intro v st hs hw fuel hf
      have hf1 : ∃ f, fuel = f + 1 := by
        have := sizeV_pos v
        cases fuel with
        | zero => omega
        | succ f => exact ⟨f, rfl⟩
      obtain ⟨f, rfl⟩ := hf1
      have hga : ∀ nd : CNode, (st.alloc nd).2.get (st.alloc nd).1 = some nd :=
        fun nd => Store.get_alloc_new hw nd
      cases v with
      | jnull =>
        simp [buildVal, readback, hga, mkPlainNode]
      | jbool b =>
        cases b with
        | true => simp [buildVal, readback, hga, mkPlainNode]
        | false => simp [buildVal, readback, hga, mkPlainNode]
      | jnum q =>
        simp [buildVal, readback, hga, mkNumberNode]
      | jstr s =>
        simp [buildVal, readback, hga, mkStringNode]
      | jarr xs =>
        have hwxs := ((buildVal_wf n).2.1 xs st (by simp only [sizeV] at hs; omega) hw).1
        have hrd := ihB xs st (by simp only [sizeV] at hs; omega) hw f
          (by simp only [sizeV] at hf; omega)
        have hmono := (readback_mono f
          ((buildItems st xs).2.le_alloc
            { mkPlainNode CType.cArray with children := (buildItems st xs).1 })).2.1
          (buildItems st xs).1 xs hrd
        have hga2 : ∀ nd : CNode,
            (((buildItems st xs).2.alloc nd)).2.get
              (((buildItems st xs).2.alloc nd)).1 = some nd :=
          fun nd => Store.get_alloc_new hwxs nd
        have ht2 : (mkPlainNode CType.cArray).type = CType.cArray := rfl
        simp only [buildVal, readback, hga2, ht2]
        exact congrArg (Option.map JVal.jarr) hmono
      | jobj kvs =>
        have hwkvs := ((buildVal_wf n).2.2 kvs st (by simp only [sizeV] at hs; omega) hw).1
        have hrd := ihC kvs st (by simp only [sizeV] at hs; omega) hw f
          (by simp only [sizeV] at hf; omega)
        have hmono := (readback_mono f
          ((buildMembers st kvs).2.le_alloc
            { mkPlainNode CType.cObject with children := (buildMembers st kvs).1 })).2.2
          (buildMembers st kvs).1 kvs hrd
        have hga2 : ∀ nd : CNode,
            (((buildMembers st kvs).2.alloc nd)).2.get
              (((buildMembers st kvs).2.alloc nd)).1 = some nd :=
          fun nd => Store.get_alloc_new hwkvs nd
        have ht2 : (mkPlainNode CType.cObject).type = CType.cObject := rfl
        simp only [buildVal, readback, hga2, ht2]
        exact congrArg (Option.map JVal.jobj) hmono
    · intro xs st hs hw fuel hf
      have hf1 : ∃ f, fuel = f + 1 := by
        have := sizeL_pos xs
        cases fuel with
        | zero => omega
        | succ f => exact ⟨f, rfl⟩
      obtain ⟨f, rfl⟩ := hf1
      cases xs with
      | nil => simp [buildItems, readItems]
      | cons x tl =>
        have hx := ihA x st (by simp only [sizeL] at hs; omega) hw f
          (by simp only [sizeL] at hf; omega)
        have hwx := ((buildVal_wf n).1 x st (by simp only [sizeL] at hs; omega) hw).1
        have hle2 := ((buildVal_wf n).2.1 tl (buildVal st x).2
          (by simp only [sizeL] at hs; omega) hwx).2.1
        have hxm := (readback_mono f hle2).1 (buildVal st x).1 x hx
        have htl := ihB tl (buildVal st x).2 (by simp only [sizeL] at hs; omega) hwx f
          (by simp only [sizeL] at hf; omega)
        simp only [buildItems, readItems, hxm, htl]
        rfl
    · intro kvs st hs hw fuel hf
      have hf1 : ∃ f, fuel = f + 1 := by
        have := sizeF_pos kvs
        cases fuel with
        | zero => omega
        | succ f => exact ⟨f, rfl⟩
      obtain ⟨f, rfl⟩ := hf1
      cases kvs with
      | nil => simp [buildMembers, readMembers]
      | cons kv tl =>
        have hx := ihA kv.2 st (by simp only [sizeF] at hs; omega) hw f
          (by simp only [sizeF] at hf; omega)
        have hwx := ((buildVal_wf n).1 kv.2 st (by simp only [sizeF] at hs; omega) hw).1
        have hle2 := ((buildVal_wf n).2.2 tl (buildVal st kv.2).2
          (by simp only [sizeF] at hs; omega) hwx).2.1
        have hxm := (readback_mono f hle2).1 (buildVal st kv.2).1 kv.2 hx
        have htl := ihC tl (buildVal st kv.2).2 (by simp only [sizeF] at hs; omega) hwx f
          (by simp only [sizeF] at hf; omega)
        simp only [buildMembers, readMembers, hxm, htl]
        rfl

/-- Appending a fresh key to an association list makes it found. -/
theorem lookup_append_fresh {α : Type} {l : List (Nat × α)} {k : Nat}
    (h : ∀ e ∈ l, e.1 ≠ k) (v : α) :
    List.lookup k (l ++ [(k, v)]) = some v := by
  rw [lookup_append_first, lookup_none_of_all_ne l h]
  simp [List.lookup]

/-- The wrapper `JSONObject(obj, own)` returns: fresh holder id, fresh set id. -/
theorem wrapNode_ids (w : World) (p : Nat) (own : Bool) :
    (wrapNode w p own).1 = ⟨w.nextH, some w.nextS⟩ := rfl

/-- The fresh holder of a wrapped node records its pointer and flag. -/
theorem wrapNode_holder {w : World} (hh : ∀ e ∈ w.holders, e.1 < w.nextH)
    (p : Nat) (own : Bool) :
    (wrapNode w p own).2.holders.lookup (wrapNode w p own).1.obj_
      = some ⟨p, own⟩ := by
  show List.lookup w.nextH (w.holders ++ [(w.nextH, ⟨p, own⟩)]) = some ⟨p, own⟩
  exact lookup_append_fresh (fun e he => Nat.ne_of_lt (hh e he)) _

/-- The fresh keepalive set of a wrapped node starts empty. -/
theorem wrapNode_set {w : World} (hs : ∀ e ∈ w.sets, e.1 < w.nextS)
    (p : Nat) (own : Bool) :
    (wrapNode w p own).2.sets.lookup w.nextS = some [] := by
  show List.lookup w.nextS (w.sets ++ [(w.nextS, [])]) = some []
  exact lookup_append_fresh (fun e he => Nat.ne_of_lt (hs e he)) _

/-- Wrapping allocates no node. -/
theorem wrapNode_store (w : World) (p : Nat) (own : Bool) :
    (wrapNode w p own).2.store = w.store := rfl

/-- A name the lookup misses is a name the detach misses. -/
theorem detachChildName_eq_none {name : String} :
    ∀ ch, lookupChildName ch name = none → detachChildName ch name = none := by
  intro ch
  induction ch with
  | nil => intro _; rfl
  | cons e tl ih =>
    intro h
    obtain ⟨ok, p⟩ := e
    cases ok with
    | none =>
      simp only [lookupChildName] at h
      simp [detachChildName, ih h]
    | some k =>
      by_cases hk : k = name
      · rw [lookupChildName, if_pos hk] at h
        exact absurd h (by simp)
      · rw [lookupChildName, if_neg hk] at h
        simp [detachChildName, if_neg hk, ih h]

/-- `asArray`'s element loop succeeds elementwise in document order. -/
theorem mapChildren_ok {α : Type} (w : World) (ext : CNode → Except String α) :
    ∀ (ch : List (Option String × Nat)) (l : List α),
      mapChildren w ext ch = Except.ok l →
      l.length = ch.length ∧
      ∀ k (hk : k < ch.length) (hl : k < l.length),
        extractAt w ext (ch.get ⟨k, hk⟩).2 = Except.ok (l.get ⟨k, hl⟩) := by
  intro ch
  induction ch with
  | nil =>
    intro l h
    simp only [mapChildren] at h
    cases h
    exact ⟨rfl, fun k hk _ => absurd hk (by simp)⟩
  | cons e tl ih =>
    intro l h
    cases hx : extractAt w ext e.2 with
    | error msg =>
      simp only [mapChildren, hx] at h
      exact absurd h (by simp)
    | ok a =>
      cases hm : mapChildren w ext tl with
      | error msg =>
        simp only [mapChildren, hx, hm] at h
        exact absurd h (by simp)
      | ok l2 =>
        simp only [mapChildren, hx, hm] at h
        cases h
        obtain ⟨hlen, hget⟩ := ih l2 hm
        refine ⟨by simp [hlen], ?_⟩
        intro k hk hl
        cases k with
        | zero => simpa using hx
        | succ k =>
          have hk2 : k < tl.length := by simpa using hk
          have hl2 : k < l2.length := by simpa using hl
          simpa using hget k hk2 hl2

/-- Retaining a holder reference touches only the reference counts. -/
theorem retainHolder_frame (w : World) (k : Nat) :
    (w.retainHolder k).store = w.store ∧ (w.retainHolder k).holders = w.holders ∧
    (w.retainHolder k).sets = w.sets ∧ (w.retainHolder k).nextH = w.nextH ∧
    (w.retainHolder k).nextS = w.nextS ∧ (w.retainHolder k).src = w.src := by
  unfold World.retainHolder
  cases w.hrc.lookup k <;> simp

/-- Retaining a keepalive-set reference touches only the reference counts. -/
theorem retainSet_frame (w : World) (r : Option Nat) :
    (w.retainSet r).store = w.store ∧ (w.retainSet r).holders = w.holders ∧
    (w.retainSet r).sets = w.sets ∧ (w.retainSet r).nextH = w.nextH ∧
    (w.retainSet r).nextS = w.nextS ∧ (w.retainSet r).hrc = w.hrc := by
  unfold World.retainSet
  cases r with
  | none => simp
  | some s => cases h2 : List.lookup s w.src <;> simp [h2]

/-! ## The claims -/

/-- C4: copy construction and copy assignment alias the source wrapper's
ownership record and keepalive set — the produced wrapper carries the very
same holder id `obj_` and set id `refs_` as the source — and copying
deep-copies nothing: the node heap, the holder records and the keepalive
sets are all untouched (only hidden reference counts move).  Children
attached through one copy are therefore attached to, and kept alive by,
the records every other copy shares. -/
theorem copy_aliases_holder_and_keepalive (w : World) (j tgt : JSONObject)
    (fuel : Nat) :
    (copyJSONObject w j).1 = j ∧
    (copyJSONObject w j).2.store = w.store ∧
    (copyJSONObject w j).2.holders = w.holders ∧
    (copyJSONObject w j).2.sets = w.sets ∧
    (copyJSONObject w j).2.nextH = w.nextH ∧
    (copyJSONObject w j).2.nextS = w.nextS ∧
    (assignJSONObject fuel w tgt j).1 = j := by
  have hH := retainHolder_frame w j.obj_
  have hS := retainSet_frame (w.retainHolder j.obj_) j.refs_
  refine ⟨rfl, ?_, ?_, ?_, ?_, ?_, rfl⟩
  · show ((w.retainHolder j.obj_).retainSet j.refs_).store = w.store
    rw [hS.1, hH.1]
  · show ((w.retainHolder j.obj_).retainSet j.refs_).holders = w.holders
    rw [hS.2.1, hH.2.1]
  · show ((w.retainHolder j.obj_).retainSet j.refs_).sets = w.sets
    rw [hS.2.2.1, hH.2.2.1]
  · show ((w.retainHolder j.obj_).retainSet j.refs_).nextH = w.nextH
    rw [hS.2.2.2.1, hH.2.2.2.1]
  · show ((w.retainHolder j.obj_).retainSet j.refs_).nextS = w.nextS
    rw [hS.2.2.2.2.1, hH.2.2.2.2.1]

/-- C9: `as<bool>` returns `true` exactly on a True node and `false`
exactly on a False node, and fails with the TypeMismatch error
`Not a boolean type` on every other node kind — Null and Number
included. -/
theorem as_bool_taxonomy (n : CNode) :
    (n.type = CType.cTrue → asBoolNode n = Except.ok true) ∧
    (n.type = CType.cFalse → asBoolNode n = Except.ok false) ∧
    (n.type ≠ CType.cTrue → n.type ≠ CType.cFalse →
      asBoolNode n = Except.error "Not a boolean type" ∧
      "Not a boolean type" ∈ TypeMismatchMsgs) := by
  refine ⟨?_, ?_, ?_⟩
  · intro h
    simp [asBoolNode, h]
  · intro h
    simp [asBoolNode, h]
  · intro h1 h2
    refine ⟨?_, by simp [TypeMismatchMsgs]⟩
    rw [asBoolNode, if_neg h1, if_neg h2]

/-- Witness for C9 at concrete nodes: a Null node and a Number node are
TypeMismatch failures, a True node reads back `true`, a False node
`false`. -/
theorem as_bool_taxonomy_witness :
    asBoolNode (mkPlainNode CType.cNULL) = Except.error "Not a boolean type" ∧
    asBoolNode (mkNumberNode 0) = Except.error "Not a boolean type" ∧
    asBoolNode (mkPlainNode CType.cTrue) = Except.ok true ∧
    asBoolNode (mkPlainNode CType.cFalse) = Except.ok false :=
  ⟨((as_bool_taxonomy (mkPlainNode CType.cNULL)).2.2 (by decide) (by decide)).1,
   ((as_bool_taxonomy (mkNumberNode 0)).2.2 (by decide) (by decide)).1,
   (as_bool_taxonomy (mkPlainNode CType.cTrue)).1 (by decide),
   (as_bool_taxonomy (mkPlainNode CType.cFalse)).2.1 (by decide)⟩

/-- The empty world is well-formed. -/
theorem wfWorld_empty : WFWorld World.empty :=
  ⟨(fun _ he => nomatch he), (fun _ he => nomatch he), (fun _ he => nomatch he)⟩

/-- Well-formedness of a world from its three decidable checks. -/
theorem wfWorld_of_checks {w : World}
    (h1 : ∀ e ∈ w.store.mem, e.1 < w.store.next)
    (h2 : ∀ e ∈ w.holders, e.1 < w.nextH)
    (h3 : ∀ e ∈ w.sets, e.1 < w.nextS) : WFWorld w :=
  ⟨h1, h2, h3⟩

/-- C7: both integer constructors (32- and 64-bit) allocate the same owned
Number node whose double payload carries the integer value; the numeric
getters `as<int>`, `as<int64_t>` and `as<double>` fail with TypeMismatch
on every non-Number node; on a Number node they read the stored double,
the integer getters converting by truncation toward zero (floor on
non-negatives, ceiling on non-positives, integers unchanged — never
rounding). -/
theorem int_ctor_double_and_trunc (w : World) (hw : WFWorld w) (v : Int)
    (q : Rat) (n : CNode) :
    mkInt w v = mkInt64 w v ∧
    (mkInt w v).2.store.get w.store.next = some (mkNumberNode (v : Rat)) ∧
    (mkInt w v).2.holders.lookup (mkInt w v).1.obj_
      = some ⟨w.store.next, true⟩ ∧
    (mkNumberNode (v : Rat)).type = CType.cNumber ∧
    (mkNumberNode (v : Rat)).valuedouble = (v : Rat) ∧
    (n.type ≠ CType.cNumber →
      asIntNode n = Except.error "Bad value type" ∧
      asInt64Node n = Except.error "Not a number type" ∧
      asDoubleNode n = Except.error "Not a number type" ∧
      "Bad value type" ∈ TypeMismatchMsgs ∧
      "Not a number type" ∈ TypeMismatchMsgs) ∧
    asDoubleNode (mkNumberNode q) = Except.ok q ∧
    asIntNode (mkNumberNode q) = Except.ok (ratTrunc q) ∧
    asInt64Node (mkNumberNode q) = Except.ok (ratTrunc q) ∧
    ratTrunc (v : Rat) = v ∧
    (0 ≤ q → ratTrunc q = ⌊q⌋) ∧
    (q ≤ 0 → ratTrunc q = ⌈q⌉) := by
  refine ⟨rfl, ?_, ?_, rfl, rfl, ?_, rfl, rfl, rfl, ?_, ?_, ?_⟩
  · show (w.store.alloc (mkNumberNode (v : Rat))).2.get w.store.next = _
    exact Store.get_alloc_new hw.1 _
  · show List.lookup w.nextH
      (w.holders ++ [(w.nextH, ⟨w.store.next, true⟩)]) = some _
    exact lookup_append_fresh (fun e he => Nat.ne_of_lt (hw.2.1 e he)) _
  · intro h
    exact ⟨by rw [asIntNode, if_neg h], by rw [asInt64Node, if_neg h],
      by rw [asDoubleNode, if_neg h],
      by simp [TypeMismatchMsgs], by simp [TypeMismatchMsgs]⟩
  · rw [ratTrunc, Rat.num_intCast, Rat.den_intCast]
    simp [Int.tdiv_one]
  · intro hq
    rw [ratTrunc, Rat.floor_def,
      Int.tdiv_eq_ediv (Rat.num_nonneg.mpr hq) (Int.natCast_nonneg _)]
  · intro hq
    have h1 : 0 ≤ (-q).num := Rat.num_nonneg.mpr (by exact neg_nonneg.mpr hq)
    have h2 : ⌈q⌉ = -⌊-q⌋ := by rw [Int.floor_neg, neg_neg]
    rw [h2, Rat.floor_def]
    rw [show (-q).num = -q.num from by simp, show (-q).den = q.den from by simp]
    rw [← Int.tdiv_eq_ediv (by simpa using h1) (Int.natCast_nonneg q.den)]
    rw [ratTrunc, Int.neg_tdiv, neg_neg]

/-- Witness for C7 at `1234`: the constructor stores the Number node at the
fresh pointer, `as<int>` reads 1234 back, truncation leaves the integer
unchanged, and `as<int>` on a String node is a TypeMismatch. -/
theorem int_ctor_witness :
    (mkInt World.empty 1234).2.store.get World.empty.store.next
      = some (mkNumberNode ((1234 : Int) : Rat)) ∧
    asIntNode (mkNumberNode ((1234 : Int) : Rat))
      = Except.ok (ratTrunc ((1234 : Int) : Rat)) ∧
    ratTrunc ((1234 : Int) : Rat) = 1234 ∧
    ratTrunc ((1234 : Int) : Rat) = ⌊((1234 : Int) : Rat)⌋ ∧
    asIntNode (mkStringNode "x") = Except.error "Bad value type" := by
  have h := int_ctor_double_and_trunc World.empty wfWorld_empty 1234
    ((1234 : Int) : Rat) (mkStringNode "x")
  exact ⟨h.2.1, h.2.2.2.2.2.2.2.1, h.2.2.2.2.2.2.2.2.2.1,
    h.2.2.2.2.2.2.2.2.2.2.1 (by positivity),
    (h.2.2.2.2.2.1 (by decide)).1⟩

/-- C6: the shared skeleton of `get<T>(name)` and `get<T>(index)` fails
with `Not an object` when the wrapper's node kind is not Object (named
access), with `Not an array type` when it is not Array (indexed access),
with `No such item` when the name or the index finds no child, and
otherwise hands the located child to `as<T>` — which for `T = JSONObject`
wraps the child as a non-owning alias: the fresh holder records the
child's pointer with ownership flag `false`, and no node is copied. -/
theorem get_error_taxonomy {α : Type} (w : World) (self : JSONObject)
    (name : String) (i : Nat) (ext : CNode → Except String α) :
    ((w.nodeOf self = none ∨
        ∃ n, w.nodeOf self = some n ∧ n.type ≠ CType.cObject) →
      getScalarByName w self name ext = Except.error "Not an object" ∧
      getJSONObjectByName w self name = (Except.error "Not an object", w)) ∧
    ((w.nodeOf self = none ∨
        ∃ n, w.nodeOf self = some n ∧ n.type ≠ CType.cArray) →
      getScalarByIndex w self i ext = Except.error "Not an array type" ∧
      getJSONObjectByIndex w self i
        = (Except.error "Not an array type", w)) ∧
    (∀ n, w.nodeOf self = some n → n.type = CType.cObject →
      lookupChildName n.children name = none →
      getScalarByName w self name ext = Except.error "No such item" ∧
      getJSONObjectByName w self name = (Except.error "No such item", w)) ∧
    (∀ n, w.nodeOf self = some n → n.type = CType.cArray →
      n.children.get? i = none →
      getScalarByIndex w self i ext = Except.error "No such item" ∧
      getJSONObjectByIndex w self i = (Except.error "No such item", w)) ∧
    (∀ n p, w.nodeOf self = some n → n.type = CType.cObject →
      lookupChildName n.children name = some p →
      getScalarByName w self name ext = extractAt w ext p ∧
      ((∀ e ∈ w.holders, e.1 < w.nextH) →
        getJSONObjectByName w self name
          = (Except.ok (wrapNode w p false).1, (wrapNode w p false).2) ∧
        (wrapNode w p false).2.holders.lookup (wrapNode w p false).1.obj_
          = some ⟨p, false⟩ ∧
        (wrapNode w p false).2.store = w.store)) ∧
    (∀ n e, w.nodeOf self = some n → n.type = CType.cArray →
      n.children.get? i = some e →
      getScalarByIndex w self i ext = extractAt w ext e.2 ∧
      ((∀ x ∈ w.holders, x.1 < w.nextH) →
        getJSONObjectByIndex w self i
          = (Except.ok (wrapNode w e.2 false).1, (wrapNode w e.2 false).2) ∧
        (wrapNode w e.2 false).2.holders.lookup
            (wrapNode w e.2 false).1.obj_ = some ⟨e.2, false⟩)) := by
  refine ⟨?_, ?_, ?_, ?_, ?_, ?_⟩
  · rintro (hn | ⟨n, hn, ht⟩)
    · exact ⟨by simp [getScalarByName, getItemByName, hn],
        by simp [getJSONObjectByName, getItemByName, hn]⟩
    · exact ⟨by simp [getScalarByName, getItemByName, hn, ht],
        by simp [getJSONObjectByName, getItemByName, hn, ht]⟩
  · rintro (hn | ⟨n, hn, ht⟩)
    · exact ⟨by simp [getScalarByIndex, getItemByIndex, hn],
        by simp [getJSONObjectByIndex, getItemByIndex, hn]⟩
    · exact ⟨by simp [getScalarByIndex, getItemByIndex, hn, ht],
        by simp [getJSONObjectByIndex, getItemByIndex, hn, ht]⟩
  · intro n hn ht hl
    exact ⟨by simp [getScalarByName, getItemByName, hn, ht, hl],
      by simp [getJSONObjectByName, getItemByName, hn, ht, hl]⟩
  · intro n hn ht hl
    have hl2 : n.children[i]? = none := by simpa using hl
    exact ⟨by simp [getScalarByIndex, getItemByIndex, hn, ht, hl2],
      by simp [getJSONObjectByIndex, getItemByIndex, hn, ht, hl2]⟩
  · intro n p hn ht hp
    refine ⟨by simp [getScalarByName, getItemByName, hn, ht, hp], ?_⟩
    intro hh
    exact ⟨by simp [getJSONObjectByName, getItemByName, hn, ht, hp],
      wrapNode_holder hh p false, rfl⟩
  · intro n e hn ht he
    have he2 : n.children[i]? = some e := by simpa using he
    refine ⟨by simp [getScalarByIndex, getItemByIndex, hn, ht, he2], ?_⟩
    intro hh
    exact ⟨by simp [getJSONObjectByIndex, getItemByIndex, hn, ht, he2],
      wrapNode_holder hh e.2 false⟩

/-- Witness for C6 on the example run `obj.set("intval", 1234)`: a missing
name raises `No such item`, a present name hands the child at pointer 1 to
`as<T>`, indexed access on the object raises `Not an array type`, and the
navigated wrapper is a non-owning alias of the child. -/
theorem get_error_taxonomy_witness :
    getScalarByName demoW2 demoObj "missing" asIntNode
      = Except.error "No such item" ∧
    getScalarByName demoW2 demoObj "intval" asIntNode
      = extractAt demoW2 asIntNode 1 ∧
    getScalarByIndex demoW2 demoObj 0 asIntNode
      = Except.error "Not an array type" ∧
    (wrapNode demoW2 1 false).2.holders.lookup
        (wrapNode demoW2 1 false).1.obj_ = some ⟨1, false⟩ := by
  have h := get_error_taxonomy (α := Int) demoW2 demoObj "missing" 0 asIntNode
  have h2 := get_error_taxonomy (α := Int) demoW2 demoObj "intval" 0 asIntNode
  refine ⟨(h.2.2.1 { mkPlainNode CType.cObject with
      children := [(some "intval", 1)] } (by decide) (by decide) (by decide)).1,
    ?_, ?_, ?_⟩
  · exact (h2.2.2.2.2.1 { mkPlainNode CType.cObject with
      children := [(some "intval", 1)] } 1 (by decide) (by decide) (by decide)).1
  · exact (h.2.1 (Or.inr ⟨{ mkPlainNode CType.cObject with
      children := [(some "intval", 1)] }, by decide, by decide⟩)).1
  · exact ((h2.2.2.2.2.1 { mkPlainNode CType.cObject with
      children := [(some "intval", 1)] } 1 (by decide) (by decide)
      (by decide)).2 (by decide)).2.1

/-- C8: `asArray<T>` fails with `Not an array type` unless the wrapper's
node kind is Array; on an Array node it applies `as<T>` to each child in
document order, the k-th element of the result coming from the k-th child;
and on the example run `add("s1"); add("s2")` it returns the ordered
sequence `["s1", "s2"]`. -/
theorem asArray_document_order {α : Type} (w : World) (self : JSONObject)
    (ext : CNode → Except String α) :
    ((w.nodeOf self = none ∨
        ∃ n, w.nodeOf self = some n ∧ n.type ≠ CType.cArray) →
      asArrayWith w self ext = Except.error "Not an array type") ∧
    (∀ n, w.nodeOf self = some n → n.type = CType.cArray →
      asArrayWith w self ext = mapChildren w ext n.children) ∧
    (∀ n l, w.nodeOf self = some n → n.type = CType.cArray →
      asArrayWith w self ext = Except.ok l →
      l.length = n.children.length ∧
      ∀ k (hk : k < n.children.length) (hl : k < l.length),
        extractAt w ext (n.children.get ⟨k, hk⟩).2
          = Except.ok (l.get ⟨k, hl⟩)) ∧
    asArrayWith demoAW3 demoArr asStringNode = Except.ok ["s1", "s2"] := by
  refine ⟨?_, ?_, ?_, by rfl⟩
  · rintro (hn | ⟨n, hn, ht⟩)
    · simp [asArrayWith, hn]
    · simp [asArrayWith, hn, ht]
  · intro n hn ht
    simp [asArrayWith, hn, ht]
  · intro n l hn ht hl
    rw [show asArrayWith w self ext = mapChildren w ext n.children from
      by simp [asArrayWith, hn, ht]] at hl
    exact mapChildren_ok w ext n.children l hl

/-- Witness for C8: on the object wrapper `asArray` is a
`Not an array type` failure, and the example array reads back
`["s1", "s2"]` in order. -/
theorem asArray_document_order_witness :
    asArrayWith demoW1 demoObj asStringNode
      = Except.error "Not an array type" ∧
    asArrayWith demoAW3 demoArr asStringNode = Except.ok ["s1", "s2"] :=
  ⟨(asArray_document_order (α := String) demoW1 demoObj asStringNode).1
      (Or.inr ⟨mkPlainNode CType.cObject, by decide, by decide⟩),
   (asArray_document_order (α := String) demoAW3 demoArr asStringNode).2.2.2⟩

/-- C1, refuted on the code: on the example run `obj.set("intval", 1234)`
followed by `obj.remove("intval")`, the remove does detach the child from
the parent's structure (the parent's child list comes back empty) and does
evict the child's wrapper from the keepalive set (the set comes back
empty) — but the detached node, at pointer 1, is passed to `deleteNode`
twice, not exactly once: the eviction destroys the last wrapper holding
it, whose owning holder already deletes the node, and `remove` then calls
`deleteNode` on the dangling pointer again. -/
theorem remove_deletes_detached_node_twice :
    demoRemove.1 = Except.ok () ∧
    (demoRemove.2.store.get 0).map CNode.children = some [] ∧
    demoRemove.2.sets.lookup 0 = some [] ∧
    demoRemove.2.store.deleteCount 1 = 2 :=
  ⟨rfl, rfl, rfl, rfl⟩

/-- C5: a failing remove, add, set or navigated get mutates nothing — the
error is raised before any mutation begins, and the world comes back
untouched; removing an absent name from an object raises exactly
`No such item`; and on the example run, after the successful
`remove("intval")` a following `get<int>("intval")` fails with
`No such item`. -/
theorem remove_absent_no_mutation (fuel : Nat) (w : World)
    (self : JSONObject) (name : String) (i : Nat) :
    (∀ n, w.nodeOf self = some n → n.type = CType.cObject →
      lookupChildName n.children name = none →
      removeName fuel w self name = (Except.error "No such item", w)) ∧
    (∀ e w2, removeName fuel w self name = (Except.error e, w2) → w2 = w) ∧
    (∀ e w2, removeIndex fuel w self i = (Except.error e, w2) → w2 = w) ∧
    (∀ mk e w2, addRaw fuel w self mk = (Except.error e, w2) → w2 = w) ∧
    (∀ mk e w2, setRaw fuel w self name mk = (Except.error e, w2) → w2 = w) ∧
    (∀ e w2, getJSONObjectByName w self name = (Except.error e, w2) →
      w2 = w) ∧
    (∀ e w2, getJSONObjectByIndex w self i = (Except.error e, w2) →
      w2 = w) ∧
    (demoRemove.1 = Except.ok () ∧
      getScalarByName demoRemove.2 demoObj "intval" asIntNode
        = Except.error "No such item") := by
  refine ⟨?_, ?_, ?_, ?_, ?_, ?_, ?_, rfl, rfl⟩
  · intro n hn ht hl
    cases hh : w.holders.lookup self.obj_ with
    | none => rw [World.nodeOf, hh] at hn; exact absurd hn (by simp)
    | some hd =>
      have hg : w.store.get hd.o = some n := by
        rw [World.nodeOf, hh] at hn; exact hn
      have hdet : detachFromObject w self name = none := by
        simp [detachFromObject, hh, hg, detachChildName_eq_none _ hl]
      simp [removeName, hn, ht, hdet]
  · intro e w2 h
    rw [removeName] at h
    split at h
    · split at h
      · split at h
        · simp at h
        · simp at h; exact h.2.symm
      · simp at h; exact h.2.symm
    · simp at h; exact h.2.symm
  · intro e w2 h
    rw [removeIndex] at h
    split at h
    · split at h
      · split at h
        · simp at h
        · simp at h; exact h.2.symm
      · simp at h; exact h.2.symm
    · simp at h; exact h.2.symm
  · intro mk e w2 h
    rw [addRaw] at h
    split at h
    · split at h
      · simp at h
      · simp at h; exact h.2.symm
    · simp at h; exact h.2.symm
  · intro mk e w2 h
    rw [setRaw] at h
    split at h
    · split at h
      · simp at h
      · simp at h; exact h.2.symm
    · simp at h; exact h.2.symm
  · intro e w2 h
    rw [getJSONObjectByName] at h
    split at h
    · simp at h
    · simp at h; exact h.2.symm
  · intro e w2 h
    rw [getJSONObjectByIndex] at h
    split at h
    · simp at h
    · simp at h; exact h.2.symm

/-- Witness for C5 on the example run: removing the absent name `missing`
fails with `No such item` and returns the world unchanged, while the
successful `remove("intval")` leaves `get<int>("intval")` failing with
`No such item`. -/
theorem remove_absent_no_mutation_witness :
    removeName 8 demoW2 demoObj "missing"
      = (Except.error "No such item", demoW2) ∧
    demoRemove.1 = Except.ok () ∧
    getScalarByName demoRemove.2 demoObj "intval" asIntNode
      = Except.error "No such item" := by
  have h := remove_absent_no_mutation 8 demoW2 demoObj "missing" 0
  exact ⟨h.1 { mkPlainNode CType.cObject with
      children := [(some "intval", 1)] } (by decide) (by decide) (by decide),
    h.2.2.2.2.2.2.2⟩

/-- C2: `parse` fails with `Parse error` exactly on input that is not
well-formed JSON — empty and garbage input included — and a failing parse
returns the world untouched, with no partially-constructed document; on
well-formed input it returns an owned wrapper (ownership flag `true`) over
the freshly built tree, which reads back as the parsed document. -/
theorem parse_iff_wellformed (w : World) (s : String) (hw : WFWorld w) :
    ((∃ e, (parse w s).1 = Except.error e) ↔ textParse s = none) ∧
    (textParse s = none → parse w s = (Except.error "Parse error", w)) ∧
    (∀ v, textParse s = some v →
      ∃ j w2, parse w s = (Except.ok j, w2) ∧
        w2.holders.lookup j.obj_ = some ⟨(buildVal w.store v).1, true⟩ ∧
        w2.store = (buildVal w.store v).2 ∧
        readback (sizeV v) w2.store (buildVal w.store v).1 = some v) := by
  cases hts : textParse s with
  | none =>
    have hp : parse w s = (Except.error "Parse error", w) := by
      simp [parse, cJSONParse, hts]
    refine ⟨⟨fun _ => rfl, fun _ => ⟨"Parse error", by rw [hp]⟩⟩,
      fun _ => hp, ?_⟩
    intro v hv
    exact absurd hv (by simp)
  | some v0 =>
    rcases hbv : buildVal w.store v0 with ⟨p, st⟩
    have hcj : cJSONParse w.store s = some (p, st) := by
      simp [cJSONParse, hts, hbv]
    have hp : parse w s =
        (Except.ok (wrapNode { w with store := st } p true).1,
          (wrapNode { w with store := st } p true).2) := by
      simp [parse, hcj]
    refine ⟨⟨?_, ?_⟩, ?_, ?_⟩
    · rintro ⟨e, he⟩
      rw [hp] at he
      exact absurd he (by simp)
    · intro hn
      exact absurd hn (by simp)
    · intro hn
      exact absurd hn (by simp)
    · intro v hv
      have hv2 : v0 = v := Option.some.inj hv
      subst hv2
      refine ⟨(wrapNode { w with store := st } p true).1,
        (wrapNode { w with store := st } p true).2, hp, ?_, ?_, ?_⟩
      · have := wrapNode_holder (w := { w with store := st }) hw.2.1 p true
        rw [hbv]
        exact this
      · rw [hbv]
        exact rfl
      · have hrb := (readback_build (sizeV v0)).1 v0 w.store le_rfl hw.1
          (sizeV v0) le_rfl
        rw [hbv] at hrb
        rw [hbv]
        exact hrb

/-- Witness for C2: the garbage input of the spec fails with `Parse error`
touching nothing, and a well-formed array parses to an owned wrapper over
a freshly built tree reading back as that array. -/
theorem parse_iff_wellformed_witness :
    parse World.empty "This is not valid JSON."
      = (Except.error "Parse error", World.empty) ∧
    (∃ j w2, parse World.empty "[\"s1\", \"s2\"]" = (Except.ok j, w2) ∧
      w2.holders.lookup j.obj_
        = some ⟨(buildVal World.empty.store
            (JVal.jarr [JVal.jstr "s1", JVal.jstr "s2"])).1, true⟩ ∧
      w2.store = (buildVal World.empty.store
          (JVal.jarr [JVal.jstr "s1", JVal.jstr "s2"])).2 ∧
      readback (sizeV (JVal.jarr [JVal.jstr "s1", JVal.jstr "s2"]))
          w2.store
          (buildVal World.empty.store
            (JVal.jarr [JVal.jstr "s1", JVal.jstr "s2"])).1
        = some (JVal.jarr [JVal.jstr "s1", JVal.jstr "s2"])) :=
  ⟨(parse_iff_wellformed World.empty "This is not valid JSON."
      wfWorld_empty).2.1 (by rfl),
   (parse_iff_wellformed World.empty "[\"s1\", \"s2\"]"
      wfWorld_empty).2.2 (JVal.jarr [JVal.jstr "s1", JVal.jstr "s2"])
      (by rfl)⟩

/-- C3: a document built through the typed constructors prints and
reparses to a structurally equal document in both print modes: `print`
on the built wrapper returns exactly the rendered text (pretty when `fmt`
is true, compact when false), and parsing that text returns the same
document — same kinds, same scalar values, same key order, same element
order. -/
theorem print_parse_roundtrip (fmt : Bool) (w : World) (v : JVal)
    (hw : WFWorld w) (hv : NumsFinite v) :
    JSONObject.printS (sizeV v) (buildWrapped w v).2 (buildWrapped w v).1
      fmt = some (textPrint fmt v) ∧
    textParse (textPrint fmt v) = some v := by
  refine ⟨?_, textParse_textPrint fmt v hv⟩
  have hl := wrapNode_holder (w := { w with store := (buildVal w.store v).2 })
    hw.2.1 (buildVal w.store v).1 true
  have hrb := (readback_build (sizeV v)).1 v w.store le_rfl hw.1 (sizeV v)
    le_rfl
  simp only [JSONObject.printS,
    show (buildWrapped w v).2.holders.lookup (buildWrapped w v).1.obj_
      = some ⟨(buildVal w.store v).1, true⟩ from hl]
  show Option.map (textPrint fmt)
      (readback (sizeV v) (buildVal w.store v).2 (buildVal w.store v).1)
    = some (textPrint fmt v)
  rw [hrb]
  rfl

/-- Witness for C3 at the example document: both print modes of the built
wrapper succeed with the rendered text and both reparse to the same
document. -/
theorem print_parse_roundtrip_witness :
    JSONObject.printS (sizeV demoDoc) (buildWrapped World.empty demoDoc).2
        (buildWrapped World.empty demoDoc).1 true
      = some (textPrint true demoDoc) ∧
    textParse (textPrint true demoDoc) = some demoDoc ∧
    JSONObject.printS (sizeV demoDoc) (buildWrapped World.empty demoDoc).2
        (buildWrapped World.empty demoDoc).1 false
      = some (textPrint false demoDoc) ∧
    textParse (textPrint false demoDoc) = some demoDoc := by
  have h1 := print_parse_roundtrip true World.empty demoDoc wfWorld_empty
    (by simp [demoDoc, NumsFinite, NumsFiniteF, NumsFiniteL])
  have h2 := print_parse_roundtrip false World.empty demoDoc wfWorld_empty
    (by simp [demoDoc, NumsFinite, NumsFiniteF, NumsFiniteL])
  exact ⟨h1.1, h1.2, h2.1, h2.2⟩

/-- C10: every wrapper produced by navigation — `get<JSONObject>` by name
or by index, and `as<JSONObject>` applied to a wrapper — carries a freshly
allocated, empty keepalive set of its own, never the parent wrapper's set:
the keepalive set is per wrapper group, not per document, so a child
attached through a navigated wrapper is kept alive by that navigated
group's set only. -/
theorem navigation_fresh_keepalive (w : World) (self : JSONObject)
    (name : String) (i : Nat) (hw : WFWorld w) (hself : livesIn self w) :
    (∀ j w2, getJSONObjectByName w self name = (Except.ok j, w2) →
      j.refs_ = some w.nextS ∧ w2.sets.lookup w.nextS = some [] ∧
      j.refs_ ≠ self.refs_) ∧
    (∀ j w2, getJSONObjectByIndex w self i = (Except.ok j, w2) →
      j.refs_ = some w.nextS ∧ w2.sets.lookup w.nextS = some [] ∧
      j.refs_ ≠ self.refs_) ∧
    (∀ j w2, asJSONObjectSelf w self = (Except.ok j, w2) →
      j.refs_ = some w.nextS ∧ w2.sets.lookup w.nextS = some [] ∧
      j.refs_ ≠ self.refs_) := by
  have hfresh : ∀ p, (wrapNode w p false).1.refs_ = some w.nextS ∧
      (wrapNode w p false).2.sets.lookup w.nextS = some [] ∧
      (wrapNode w p false).1.refs_ ≠ self.refs_ := by
    intro p
    refine ⟨rfl, wrapNode_set hw.2.2 p false, ?_⟩
    intro hcontra
    have hs : self.refs_ = some w.nextS := by
      rw [← hcontra]
      rfl
    obtain ⟨e, he, heq⟩ := List.mem_map.mp (hself.2 w.nextS hs)
    have := hw.2.2 e he
    omega
  refine ⟨?_, ?_, ?_⟩
  · intro j w2 h
    rw [getJSONObjectByName] at h
    split at h
    · simp at h
      obtain ⟨hj, hw2⟩ := h
      rw [← hj, ← hw2]
      exact hfresh _
    · simp at h
  · intro j w2 h
    rw [getJSONObjectByIndex] at h
    split at h
    · simp at h
      obtain ⟨hj, hw2⟩ := h
      rw [← hj, ← hw2]
      exact hfresh _
    · simp at h
  · intro j w2 h
    rw [asJSONObjectSelf] at h
    split at h
    · simp at h
      obtain ⟨hj, hw2⟩ := h
      rw [← hj, ← hw2]
      exact hfresh _
    · simp at h

/-- Witness for C10 on the example run: navigating to `intval` yields a
wrapper whose keepalive set is the freshly allocated set 1 — empty, and
distinct from the parent's set 0. -/
theorem navigation_fresh_keepalive_witness :
    (⟨2, some 1⟩ : JSONObject).refs_ = some demoW2.nextS ∧
    (wrapNode demoW2 1 false).2.sets.lookup demoW2.nextS = some [] ∧
    (⟨2, some 1⟩ : JSONObject).refs_ ≠ demoObj.refs_ := by
  have h := navigation_fresh_keepalive demoW2 demoObj "intval" 0
    (wfWorld_of_checks (by decide) (by decide) (by decide))
    ⟨by decide, fun s hs => by
      rw [show demoObj.refs_ = some 0 from rfl] at hs
      injection hs with h2
      subst h2
      decide⟩
  exact h.1 ⟨2, some 1⟩ (wrapNode demoW2 1 false).2 (by rfl)

end Cjsonpp
